import Mathlib

/-!
Shallow embedding of the dotfile reconciler in `src/main.rs`.

Paths are modelled as lists of components.  The destination filesystem
(everything under and around `$HOME`) is an association list from paths to
entries; the source tree (under the stow root) is a separate inductive tree,
matching the program's split between the tree it walks with `read_dir` and
the destination area it mutates.  Symbolic links created by the program
always point into the source tree, so reads that follow a symlink are
resolved against the source tree.

The Lua scripting runtime is an external collaborator: the embedding keeps
the evaluation of a chunk as an environment function from chunk text to a
`LuaValue` (the spec's determinism requirement for descriptor evaluation,
section 4.1), and models the dynamically typed field reads `t.get("rename_to")`
and `t.get("transform")` by a small value universe `LuaRaw`.
-/

namespace Dotty

/-- A filesystem path, as a list of components (`/a/b` is `["a", "b"]`). -/
abbrev Path := List String

/-- One destination filesystem entry: a regular file with its byte content
(modelled as a string), a symbolic link storing its raw target path
(uncanonicalized, as `fs::read_link` returns it), or a directory. -/
inductive FsEntry where
  | file (content : String)
  | symlink (target : Path)
  | dir
  deriving DecidableEq, Repr

/-- The destination filesystem: an association list from paths to entries,
first binding wins. -/
abbrev Fs := List (Path × FsEntry)

/-- Lookup (`lstat`-like: does not follow symlinks). -/
def Fs.get (fs : Fs) (p : Path) : Option FsEntry :=
  (fs.find? (fun pr => decide (pr.1 = p))).map (fun pr => pr.2)

/-- Write a binding (used for `fs::write`, `symlink` and `create_dir_all`). -/
def Fs.set (fs : Fs) (p : Path) (e : FsEntry) : Fs :=
  (p, e) :: fs.filter (fun pr => decide (pr.1 ≠ p))

/-- Remove a binding (used for `fs::remove_file`). -/
def Fs.erase (fs : Fs) (p : Path) : Fs :=
  fs.filter (fun pr => decide (pr.1 ≠ p))

/-- `f` is contained in `g`: every binding of `f` is present in `g`. -/
def Fs.Sub (f g : Fs) : Prop :=
  ∀ p e, Fs.get f p = some e → Fs.get g p = some e

/-- A source tree entry as enumerated by `read_dir` in `walk_dir`:
a regular file with content, or a directory with its own listing.
A `.lua` companion descriptor is itself such a file entry; whether it is
skipped as a companion is decided by the walker, as in the source. -/
inductive SrcEntry where
  | file (name : String) (content : String)
  | dir (name : String) (entries : List SrcEntry)

/-- `entry.file_name()`. -/
def SrcEntry.name : SrcEntry → String
  | .file n _ => n
  | .dir n _ => n

/-- A raw Lua value sitting in a table field, as seen by `t.get(...)`:
`nil`, a string, a callable, or some other non-convertible value
(boolean, nested table).  The callable models a Lua function from the
original file content to the transformed content, which may raise. -/
inductive LuaRaw where
  | nil
  | str (s : String)
  | func (f : String → Except String String)
  | boolean (b : Bool)
  | table

/-- The two fields `lua_decision` reads from a returned table. -/
structure LuaTable where
  rename_to : LuaRaw
  transform : LuaRaw

/-- The value a descriptor chunk evaluates to: `Value::Boolean`,
`Value::Table`, or anything else (with its Lua type name). -/
inductive LuaValue where
  | boolean (b : Bool)
  | table (t : LuaTable)
  | other (typeName : String)

/-- `t.get::<Option<String>>("rename_to")`: `nil` converts to `None`,
a string converts to `Some`, any other value is a conversion error. -/
def getOptString : LuaRaw → Except Unit (Option String)
  | .nil => .ok none
  | .str s => .ok (some s)
  | _ => .error ()

/-- `t.get::<Option<Function>>("transform")`: `nil` converts to `None`,
a function converts to `Some`, any other value is a conversion error. -/
def getOptFunc : LuaRaw → Except Unit (Option (String → Except String String))
  | .nil => .ok none
  | .func f => .ok (some f)
  | _ => .error ()

/-- The struct `LuaDecision` of the source. -/
structure LuaDecision where
  include_ : Bool
  rename_to : Option String
  transform : Option String
  deriving DecidableEq, Repr

/-- Second half of the `Value::Table` arm of `lua_decision`: read the
optional `transform` function (a failed conversion is treated as absent,
`Err(_) => None`), call it on the source file content, and build the
decision. -/
def tableTransform (t : LuaTable) (rt : Option String) (sourceContent : String) :
    Except String LuaDecision :=
  match (match getOptFunc t.transform with | .ok v => v | .error _ => none) with
  | some f =>
    match f sourceContent with
    | .ok res => .ok { include_ := true, rename_to := rt, transform := some res }
    | .error e => .error ("Lua transform function error: " ++ e)
  | none => .ok { include_ := true, rename_to := rt, transform := none }

/-- The `match value` in `lua_decision` (lines 87-143 of `main.rs`):
a boolean is shorthand for include/exclude with no rename and no
transform; a table is read field by field (a failed `rename_to`
conversion is `Err(_) => None`), with `rename_to` validated to be a
non-empty single component; any other value is an error. -/
def decisionOfValue (v : LuaValue) (sourceContent : String) : Except String LuaDecision :=
  match v with
  | .boolean b => .ok { include_ := b, rename_to := none, transform := none }
  | .table t =>
    match (match getOptString t.rename_to with | .ok v => v | .error _ => none) with
    | some nm =>
      if '/' ∈ nm.data ∨ '\\' ∈ nm.data then
        .error "rename_to must be a file name without path separators"
      else if nm = "" then
        .error "rename_to must not be empty"
      else
        tableTransform t (some nm) sourceContent
    | none => tableTransform t none sourceContent
  | .other tn => .error ("Lua filter must return boolean or table. Got " ++ tn)

/-- The resolved configuration (`Options` in the source); `verbose` and
`color` only affect terminal output, which the embedding does not model. -/
structure Options where
  dry_run : Bool
  override_identical : Bool
  verbose : Bool
  color : Bool

/-- The fixed environment of a run: stow root path, home path, the full
source tree listing at the root, and the Lua collaborator evaluating a
descriptor chunk to a value (deterministic per spec section 4.1). -/
structure Env where
  root : Path
  home : Path
  tree : List SrcEntry
  luaEval : String → Except String LuaValue

/-- Evaluate a descriptor: `lua.load(src).eval()` followed by the
`match value` of `lua_decision`. -/
def lua_decision (env : Env) (companionSrc : String) (sourceContent : String) :
    Except String LuaDecision :=
  match env.luaEval companionSrc with
  | .error e => .error ("Failed to execute Lua chunk: " ++ e)
  | .ok v => decisionOfValue v sourceContent

/-- Walk down the source tree along a list of components. -/
def findEntry : List String → List SrcEntry → Option SrcEntry
  | [], _ => none
  | [n], es => es.find? (fun e => decide (e.name = n))
  | n :: rest, es =>
    match es.find? (fun e => decide (e.name = n)) with
    | some (.dir _ sub) => findEntry rest sub
    | _ => none

/-- Resolve an absolute path against the source tree: defined only for
paths below the stow root. -/
def sourceLookup (env : Env) (p : Path) : Option SrcEntry :=
  if env.root.isPrefixOf p then findEntry (p.drop env.root.length) env.tree else none

/-- Read the bytes of a source-tree file at an absolute path. -/
def srcRead (env : Env) (t : Path) : Option String :=
  match sourceLookup env t with
  | some (.file _ c) => some c
  | _ => none

/-- Does the absolute path name a source-tree regular file? -/
def srcIsFile (env : Env) (t : Path) : Bool :=
  match sourceLookup env t with
  | some (.file _ _) => true
  | _ => false

/-- Does the absolute path name a source-tree directory? -/
def srcIsDir (env : Env) (t : Path) : Bool :=
  match sourceLookup env t with
  | some (.dir _ _) => true
  | _ => false

/-- `fs::read` at a destination path: reads a regular file's bytes, or
follows a symbolic link into the source tree (the only links the program
creates point at source files). -/
def readFs (env : Env) (fs : Fs) (p : Path) : Option String :=
  match Fs.get fs p with
  | some (.file c) => some c
  | some (.symlink t) => srcRead env t
  | _ => none

/-- `fs::read_link`. -/
def readLink (fs : Fs) (p : Path) : Option Path :=
  match Fs.get fs p with
  | some (.symlink t) => some t
  | _ => none

/-- `target.is_file()`: follows symlinks, true when the path resolves to a
regular file. -/
def isFileLike (env : Env) (fs : Fs) (p : Path) : Bool :=
  match Fs.get fs p with
  | some (.file _) => true
  | some (.symlink t) => srcIsFile env t
  | _ => false

/-- `target.is_dir()`: follows symlinks, true when the path resolves to a
directory. -/
def isDirLike (env : Env) (fs : Fs) (p : Path) : Bool :=
  match Fs.get fs p with
  | some .dir => true
  | some (.symlink t) => srcIsDir env t
  | _ => false

/-- One step of `create_dir_all`: ensure `q` is a directory (or resolves
to one); creating over a regular file is an I/O error. -/
def mkdirStep (env : Env) (fs : Fs) (q : Path) : Except String Fs :=
  match Fs.get fs q with
  | none => .ok (Fs.set fs q .dir)
  | some .dir => .ok fs
  | some (.symlink t) =>
    if srcIsDir env t then .ok fs else .error "Failed to create parent directories"
  | some (.file _) => .error "Failed to create parent directories"

/-- `create_dir_all` over the successive components below `base`. -/
def mkDirs (env : Env) (fs : Fs) (base : Path) : List String → Except String Fs
  | [] => .ok fs
  | c :: rest =>
    match mkdirStep env fs (base ++ [c]) with
    | .error e => .error e
    | .ok fs' => mkDirs env fs' (base ++ [c]) rest

/-- `fs::create_dir_all(p)`: create every missing ancestor directory of
`p`, including `p` itself. -/
def createDirAll (env : Env) (fs : Fs) (p : Path) : Except String Fs :=
  mkDirs env fs [] p

/-- `unix_fs::symlink(source, target)`: fails when the target already
exists. -/
def symlinkCreate (fs : Fs) (target source : Path) : Except String Fs :=
  match Fs.get fs target with
  | some _ => .error "Failed to symlink"
  | none => .ok (Fs.set fs target (.symlink source))

/-- The four counters of `WalkCounts`. -/
structure WalkCounts where
  planned : Nat
  conflicts : Nat
  skips : Nat
  overrides : Nat
  deriving DecidableEq, Repr

def WalkCounts.zero : WalkCounts := ⟨0, 0, 0, 0⟩

/-- The `+=` folding of a sub-walk's counters into the parent's. -/
def WalkCounts.add (a b : WalkCounts) : WalkCounts :=
  ⟨a.planned + b.planned, a.conflicts + b.conflicts,
   a.skips + b.skips, a.overrides + b.overrides⟩

def WalkCounts.skip1 : WalkCounts := ⟨0, 0, 1, 0⟩
def WalkCounts.planned1 : WalkCounts := ⟨1, 0, 0, 0⟩
def WalkCounts.conflict1 : WalkCounts := ⟨0, 1, 0, 0⟩
def WalkCounts.plannedOverride1 : WalkCounts := ⟨1, 0, 0, 1⟩

/-- The classification computed in the conflict path of `walk_dir`
(lines 262-280).  `readsContent` instruments which branches execute
`fs::read` on file content: in the transform arm the target is always
read; in the symlink arm `content_matches` is computed eagerly (it is a
plain `let`), and its `&&` chain reads both files exactly when
`target.is_file()` holds (`path.is_file()` is true for the walked file). -/
structure Classified where
  identical : Bool
  alreadyLinked : Bool
  readsContent : Bool
  deriving DecidableEq, Repr

def classifyTarget (env : Env) (fs : Fs) (transform? : Option String)
    (source : Path) (srcContent : String) (target : Path) : Classified :=
  match transform? with
  | some c =>
    { identical := decide (readFs env fs target = some c)
      alreadyLinked := false
      readsContent := true }
  | none =>
    let isSym := match Fs.get fs target with
      | some (.symlink _) => true
      | _ => false
    let linkMatch := isSym && decide (readLink fs target = some source)
    let fileLike := isFileLike env fs target
    let contentMatch := fileLike && decide (readFs env fs target = some srcContent)
    { identical := linkMatch || contentMatch
      alreadyLinked := linkMatch
      readsContent := fileLike }

/-- The companion descriptor path of a source file: `with_extension`
appends `.lua` after the existing extension, so `a.txt` pairs with
`a.txt.lua` and `bashrc` with `bashrc.lua`. -/
def companionName (name : String) : String := name ++ ".lua"

/-- Step 1 of the per-file processing: look for a companion descriptor in
the same directory listing and evaluate it, defaulting to
include/no-rename/no-transform when there is none.  A companion that
exists but is a directory makes `fs::read_to_string` fail. -/
def decideFile (env : Env) (sib : List SrcEntry) (name content : String) :
    Except String LuaDecision :=
  match sib.find? (fun e => decide (e.name = companionName name)) with
  | some (.file _ luaSrc) => lua_decision env luaSrc content
  | some (.dir _ _) => .error "Failed to read Lua file"
  | none => .ok { include_ := true, rename_to := none, transform := none }

/-- The destination file name: `rename_to` replaces the final component. -/
def targetName (d : LuaDecision) (name : String) : String :=
  d.rename_to.getD name

/-- `home.join(&target_rel_path)` where `target_rel_path` is `rel` with
the (possibly renamed) file name appended. -/
def targetPath (env : Env) (rel : Path) (name : String) (d : LuaDecision) : Path :=
  env.home ++ rel ++ [targetName d name]

/-- `root.join(rel).join(file_name)`: the path stored in created symlinks. -/
def sourcePath (env : Env) (rel : Path) (name : String) : Path :=
  env.root ++ rel ++ [name]

/-- Step 4 of the per-file processing: `create_dir_all` on the target's
parent, skipped entirely in dry-run. -/
def dirStage (env : Env) (opts : Options) (fs : Fs) (parent : Path) : Except String Fs :=
  if opts.dry_run then .ok fs else createDirAll env fs parent

/-- The destructive branch of the override path (lines 315-349):
`remove_file` (its error ignored) then write the transformed content or
create the symlink in its place. -/
def overrideReplace (d : LuaDecision) (source target : Path) (fs1 : Fs) :
    Except String (Fs × WalkCounts) :=
  match d.transform with
  | some c => .ok (Fs.set (Fs.erase fs1 target) target (.file c), WalkCounts.plannedOverride1)
  | none =>
    match symlinkCreate (Fs.erase fs1 target) target source with
    | .error e => .error e
    | .ok fs3 => .ok (fs3, WalkCounts.plannedOverride1)

/-- The conflict path of `walk_dir` (lines 260-378): the destination
entry exists (or is a dangling symlink); classify it, report it planned
when already linked / already identical under a transform, destructively
replace it in override mode (never a directory), otherwise count a
conflict and leave it alone. -/
def onExisting (env : Env) (opts : Options) (d : LuaDecision) (source : Path)
    (content : String) (target : Path) (fs1 : Fs) : Except String (Fs × WalkCounts) :=
  if (classifyTarget env fs1 d.transform source content target).alreadyLinked
      || (d.transform.isSome
        && (classifyTarget env fs1 d.transform source content target).identical) then
    .ok (fs1, WalkCounts.planned1)
  else if opts.override_identical
      && (classifyTarget env fs1 d.transform source content target).identical
      && !opts.dry_run && !(isDirLike env fs1 target) then
    overrideReplace d source target fs1
  else
    .ok (fs1, WalkCounts.conflict1)

/-- The no-conflict path of `walk_dir` (lines 379-437): the destination is
absent; write the transformed content or create the symlink, unless in
dry-run. -/
def onAbsent (opts : Options) (d : LuaDecision) (source : Path) (target : Path)
    (fs1 : Fs) : Except String (Fs × WalkCounts) :=
  match d.transform with
  | some c =>
    if opts.dry_run then .ok (fs1, WalkCounts.planned1)
    else .ok (Fs.set fs1 target (.file c), WalkCounts.planned1)
  | none =>
    if opts.dry_run then .ok (fs1, WalkCounts.planned1)
    else
      match symlinkCreate fs1 target source with
      | .error e => .error e
      | .ok fs2 => .ok (fs2, WalkCounts.planned1)

/-- The body of the `path.is_file()` branch of `walk_dir`
(lines 207-437): evaluate the decision, handle skip, resolve the target,
create parent directories unless dry-run, then dispatch on
`target.exists() || target.is_symlink()` (the destination entry being
present in any form). -/
def processFile (env : Env) (opts : Options) (rel : Path) (sib : List SrcEntry)
    (name content : String) (fs : Fs) : Except String (Fs × WalkCounts) :=
  match decideFile env sib name content with
  | .error e => .error e
  | .ok d =>
    if !d.include_ then
      .ok (fs, WalkCounts.skip1)
    else
      match dirStage env opts fs (targetPath env rel name d).dropLast with
      | .error e => .error e
      | .ok fs1 =>
        match Fs.get fs1 (targetPath env rel name d) with
        | some _ => onExisting env opts d (sourcePath env rel name) content
            (targetPath env rel name d) fs1
        | none => onAbsent opts d (sourcePath env rel name)
            (targetPath env rel name d) fs1

/-- `file_name_str.strip_suffix(".lua")`, written over the character list
so that it computes by kernel reduction: returns the name minus the
suffix when the name ends in `.lua`. -/
def stripLuaSuffix (n : String) : Option String :=
  if n.data.length < 4 then none
  else if n.data.drop (n.data.length - 4) = ['.', 'l', 'u', 'a'] then
    some (String.mk (n.data.take (n.data.length - 4)))
  else none

/-- The companion-skip test at the top of the loop (lines 185-194): an
entry whose name ends in `.lua` is skipped when the same listing contains
an entry named like it minus the suffix. -/
def isCompanionToSibling (sib : List SrcEntry) (n : String) : Bool :=
  match stripLuaSuffix n with
  | some base => sib.any (fun e => decide (e.name = base))
  | none => false

/-- `walk_dir`: fold the directory listing `todo` (with `sib` the full
listing of the same directory, used for companion lookups), skipping
companions, recursing into directories and summing their counters, and
processing files; errors abort the walk. -/
def walkEntries (env : Env) (opts : Options) :
    Path → List SrcEntry → List SrcEntry → Fs → Except String (Fs × WalkCounts)
  | _, _, [], fs => .ok (fs, WalkCounts.zero)
  | rel, sib, e :: rest, fs =>
    if isCompanionToSibling sib e.name then
      walkEntries env opts rel sib rest fs
    else
      match e with
      | .dir n sub =>
        match walkEntries env opts (rel ++ [n]) sub sub fs with
        | .error err => .error err
        | .ok (fs1, c1) =>
          match walkEntries env opts rel sib rest fs1 with
          | .error err => .error err
          | .ok (fs2, c2) => .ok (fs2, WalkCounts.add c1 c2)
      | .file n content =>
        match processFile env opts rel sib n content fs with
        | .error err => .error err
        | .ok (fs1, c1) =>
          match walkEntries env opts rel sib rest fs1 with
          | .error err => .error err
          | .ok (fs2, c2) => .ok (fs2, WalkCounts.add c1 c2)
  termination_by _ _ todo _ => sizeOf todo

/-- The whole run: `walk_dir(root, "", home, lua, opts)` starting from the
root listing. -/
def runWalk (env : Env) (opts : Options) (fs : Fs) : Except String (Fs × WalkCounts) :=
  walkEntries env opts [] env.tree env.tree fs


deriving instance DecidableEq for Except

/-- Fuel-indexed evaluator for `walk_dir`, structurally recursive on the
fuel so that concrete runs compute by kernel reduction; it agrees with
`walkEntries` whenever the fuel covers the size of the listing. -/
def walkFuel (env : Env) (opts : Options) :
    Nat → Path → List SrcEntry → List SrcEntry → Fs → Except String (Fs × WalkCounts)
  | _, _, _, [], fs => .ok (fs, WalkCounts.zero)
  | 0, _, _, _ :: _, _ => .error "out of fuel"
  | fuel + 1, rel, sib, e :: rest, fs =>
    if isCompanionToSibling sib e.name then
      walkFuel env opts fuel rel sib rest fs
    else
      match e with
      | .dir n sub =>
        match walkFuel env opts fuel (rel ++ [n]) sub sub fs with
        | .error err => .error err
        | .ok (fs1, c1) =>
          match walkFuel env opts fuel rel sib rest fs1 with
          | .error err => .error err
          | .ok (fs2, c2) => .ok (fs2, WalkCounts.add c1 c2)
      | .file n content =>
        match processFile env opts rel sib n content fs with
        | .error err => .error err
        | .ok (fs1, c1) =>
          match walkFuel env opts fuel rel sib rest fs1 with
          | .error err => .error err
          | .ok (fs2, c2) => .ok (fs2, WalkCounts.add c1 c2)

theorem sizeOf_srcEntry_pos (e : SrcEntry) : 1 ≤ sizeOf e := by
  cases e <;> simp <;> omega

theorem walkFuel_eq (env : Env) (opts : Options) :
    ∀ (rel : Path) (sib todo : List SrcEntry) (fs : Fs) (fuel : Nat),
      sizeOf todo ≤ fuel →
      walkFuel env opts fuel rel sib todo fs = walkEntries env opts rel sib todo fs := by
  intro rel sib todo fs
  induction rel, sib, todo, fs using walkEntries.induct env opts with
  | case1 rel sib fs =>
    intro fuel hfuel
    cases fuel <;> simp [walkFuel, walkEntries]
  | case2 rel sib e rest fs hcomp ih =>
    intro fuel hfuel
    have hpos := sizeOf_srcEntry_pos e
    simp only [List.cons.sizeOf_spec] at hfuel
    cases fuel with
    | zero => omega
    | succ n =>
      have hrest : sizeOf rest ≤ n := by omega
      cases e with
      | dir m sub =>
        simp only [walkFuel, if_pos hcomp, walkEntries.eq_2, ih n hrest]
      | file m content =>
        simp only [walkFuel, if_pos hcomp, walkEntries.eq_3, ih n hrest]
  | case3 rel sib rest fs n sub err herr hcomp ihsub =>
    intro fuel hfuel
    simp only [List.cons.sizeOf_spec, SrcEntry.dir.sizeOf_spec] at hfuel
    cases fuel with
    | zero => omega
    | succ m =>
      have hsz : sizeOf sub ≤ m := by omega
      simp only [walkFuel, if_neg hcomp, ihsub m hsz, herr, walkEntries.eq_2]
  | case4 rel sib rest fs n sub fs2 c2 hwsub err hrest hcomp ihsub ihrest =>
    intro fuel hfuel
    simp only [List.cons.sizeOf_spec, SrcEntry.dir.sizeOf_spec] at hfuel
    cases fuel with
    | zero => omega
    | succ m =>
      have hsz : sizeOf sub ≤ m := by omega
      have hsz2 : sizeOf rest ≤ m := by omega
      simp only [walkFuel, if_neg hcomp, ihsub m hsz, hwsub, ihrest m hsz2, hrest,
        walkEntries.eq_2]
  | case5 rel sib rest fs n sub fs2 c2 hwsub fs3 c3 hrest hcomp ihsub ihrest =>
    intro fuel hfuel
    simp only [List.cons.sizeOf_spec, SrcEntry.dir.sizeOf_spec] at hfuel
    cases fuel with
    | zero => omega
    | succ m =>
      have hsz : sizeOf sub ≤ m := by omega
      have hsz2 : sizeOf rest ≤ m := by omega
      simp only [walkFuel, if_neg hcomp, ihsub m hsz, hwsub, ihrest m hsz2, hrest,
        walkEntries.eq_2]
  | case6 rel sib rest fs n content err herr hcomp =>
    intro fuel hfuel
    simp only [List.cons.sizeOf_spec, SrcEntry.file.sizeOf_spec] at hfuel
    cases fuel with
    | zero => omega
    | succ m =>
      simp only [walkFuel, if_neg hcomp, herr, walkEntries.eq_3]
  | case7 rel sib rest fs n content fs2 c2 hpf err hrest hcomp ihrest =>
    intro fuel hfuel
    simp only [List.cons.sizeOf_spec, SrcEntry.file.sizeOf_spec] at hfuel
    cases fuel with
    | zero => omega
    | succ m =>
      have hsz2 : sizeOf rest ≤ m := by omega
      simp only [walkFuel, if_neg hcomp, hpf, ihrest m hsz2, hrest, walkEntries.eq_3]
  | case8 rel sib rest fs n content fs2 c2 hpf fs3 c3 hrest hcomp ihrest =>
    intro fuel hfuel
    simp only [List.cons.sizeOf_spec, SrcEntry.file.sizeOf_spec] at hfuel
    cases fuel with
    | zero => omega
    | succ m =>
      have hsz2 : sizeOf rest ≤ m := by omega
      simp only [walkFuel, if_neg hcomp, hpf, ihrest m hsz2, hrest, walkEntries.eq_3]

/-- Concrete runs of the walk evaluate through the fuel evaluator. -/
theorem walkEntries_eval (env : Env) (opts : Options) (rel : Path)
    (sib todo : List SrcEntry) (fs : Fs) :
    walkEntries env opts rel sib todo fs =
      walkFuel env opts (sizeOf todo) rel sib todo fs :=
  (walkFuel_eq env opts rel sib todo fs (sizeOf todo) (Nat.le_refl _)).symm

theorem runWalk_eval (env : Env) (opts : Options) (fs : Fs) :
    runWalk env opts fs = walkFuel env opts (sizeOf env.tree) [] env.tree env.tree fs :=
  walkEntries_eval env opts [] env.tree env.tree fs


/-- The number of managed file entries a successful walk classifies:
non-companion files, recursively. -/
def fileCount : List SrcEntry → List SrcEntry → Nat
  | _, [] => 0
  | sib, e :: rest =>
    if isCompanionToSibling sib e.name then fileCount sib rest
    else
      match e with
      | .dir _ sub => fileCount sub sub + fileCount sib rest
      | .file _ _ => 1 + fileCount sib rest
  termination_by _ todo => sizeOf todo

/-! ### Association-list filesystem lemmas -/

theorem Fs.get_cons (q : Path) (e : FsEntry) (fs : Fs) (p : Path) :
    Fs.get ((q, e) :: fs) p = if q = p then some e else Fs.get fs p := by
  by_cases h : q = p <;> simp [Fs.get, List.find?_cons, h]

theorem Fs.get_filter_ne (fs : Fs) (p q : Path) :
    Fs.get (fs.filter (fun pr => decide (pr.1 ≠ p))) q =
      if q = p then none else Fs.get fs q := by
  induction fs with
  | nil => simp [Fs.get]
  | cons hd tl ih =>
    obtain ⟨a, b⟩ := hd
    by_cases hh : a = p
    · rw [List.filter_cons_of_neg (by simp [hh]), ih, Fs.get_cons]
      by_cases h : q = p
      · simp_all
      · rw [if_neg h, if_neg h, if_neg (fun hc => h (hh ▸ hc.symm))]
    · rw [List.filter_cons_of_pos (by simp [hh]), Fs.get_cons, ih, Fs.get_cons]
      by_cases hq : a = q <;> by_cases h : q = p <;> simp_all

theorem Fs.get_set (fs : Fs) (p : Path) (e : FsEntry) (q : Path) :
    Fs.get (Fs.set fs p e) q = if q = p then some e else Fs.get fs q := by
  unfold Fs.set
  rw [Fs.get_cons, Fs.get_filter_ne]
  by_cases h : q = p <;> simp_all [eq_comm]

theorem Fs.get_erase (fs : Fs) (p q : Path) :
    Fs.get (Fs.erase fs p) q = if q = p then none else Fs.get fs q :=
  Fs.get_filter_ne fs p q

theorem Fs.Sub.refl (fs : Fs) : Fs.Sub fs fs := fun _ _ h => h

theorem Fs.Sub.trans {f g h : Fs} (h1 : Fs.Sub f g) (h2 : Fs.Sub g h) : Fs.Sub f h :=
  fun p e hp => h2 p e (h1 p e hp)

theorem Fs.Sub.set_absent {fs : Fs} {p : Path} (e : FsEntry)
    (h : Fs.get fs p = none) : Fs.Sub fs (Fs.set fs p e) := by
  intro q e' hq
  rw [Fs.get_set]
  split
  · next heq => rw [heq] at hq; rw [hq] at h; exact absurd h (by simp)
  · exact hq



/-! ### Reads depend on the filesystem only at the target path -/

theorem readFs_congr {env : Env} {fs fs' : Fs} {p : Path}
    (h : Fs.get fs p = Fs.get fs' p) : readFs env fs p = readFs env fs' p := by
  unfold readFs; rw [h]

theorem readLink_congr {fs fs' : Fs} {p : Path}
    (h : Fs.get fs p = Fs.get fs' p) : readLink fs p = readLink fs' p := by
  unfold readLink; rw [h]

theorem isFileLike_congr {env : Env} {fs fs' : Fs} {p : Path}
    (h : Fs.get fs p = Fs.get fs' p) : isFileLike env fs p = isFileLike env fs' p := by
  unfold isFileLike; rw [h]

theorem isDirLike_congr {env : Env} {fs fs' : Fs} {p : Path}
    (h : Fs.get fs p = Fs.get fs' p) : isDirLike env fs p = isDirLike env fs' p := by
  unfold isDirLike; rw [h]

theorem classifyTarget_congr {env : Env} {fs fs' : Fs} {t? : Option String}
    {s : Path} {c : String} {target : Path}
    (h : Fs.get fs target = Fs.get fs' target) :
    classifyTarget env fs t? s c target = classifyTarget env fs' t? s c target := by
  unfold classifyTarget
  rw [readFs_congr h, readLink_congr h, isFileLike_congr h, h]

theorem isDirLike_mono {env : Env} {f g : Fs} {q : Path}
    (hsub : Fs.Sub f g) (h : isDirLike env f q = true) : isDirLike env g q = true := by
  unfold isDirLike at *
  cases hget : Fs.get f q with
  | none => rw [hget] at h; simp at h
  | some e =>
    rw [hsub q e hget]
    rw [hget] at h
    exact h

/-! ### `create_dir_all` lemmas -/

theorem mkdirStep_sub {env : Env} {fs fs' : Fs} {q : Path}
    (h : mkdirStep env fs q = .ok fs') : Fs.Sub fs fs' := by
  unfold mkdirStep at h
  split at h
  · next hget =>
    cases h
    exact Fs.Sub.set_absent _ hget
  · cases h
    exact Fs.Sub.refl _
  · split at h
    · cases h
      exact Fs.Sub.refl _
    · cases h
  · cases h

theorem mkdirStep_dirLike {env : Env} {fs fs' : Fs} {q : Path}
    (h : mkdirStep env fs q = .ok fs') : isDirLike env fs' q = true := by
  unfold mkdirStep at h
  split at h
  · next hget => cases h; simp [isDirLike, Fs.get_set]
  · next hget => cases h; simp [isDirLike, hget]
  · next t hget =>
    split at h
    · next hsrc => cases h; simp [isDirLike, hget, hsrc]
    · cases h
  · cases h

theorem mkdirStep_get_ne {env : Env} {fs fs' : Fs} {q : Path}
    (h : mkdirStep env fs q = .ok fs') (p : Path) (hne : p ≠ q) :
    Fs.get fs' p = Fs.get fs p := by
  unfold mkdirStep at h
  split at h
  · cases h; simp [Fs.get_set, hne]
  · cases h; rfl
  · split at h
    · cases h; rfl
    · cases h
  · cases h

theorem mkdirStep_noop {env : Env} {fs : Fs} {q : Path}
    (h : isDirLike env fs q = true) : mkdirStep env fs q = .ok fs := by
  unfold isDirLike at h
  unfold mkdirStep
  cases hget : Fs.get fs q with
  | none => rw [hget] at h; simp at h
  | some e =>
    rw [hget] at h
    cases e with
    | file c => simp at h
    | dir => rfl
    | symlink t =>
      simp only at h
      simp [h]



theorem mkDirs_sub {env : Env} :
    ∀ {comps : List String} {fs fs' : Fs} {base : Path},
      mkDirs env fs base comps = .ok fs' → Fs.Sub fs fs' := by
  intro comps
  induction comps with
  | nil => intro fs fs' base h; cases h; exact Fs.Sub.refl _
  | cons c rest ih =>
    intro fs fs' base h
    unfold mkDirs at h
    split at h
    · cases h
    · next fsb hstep => exact (mkdirStep_sub hstep).trans (ih h)

theorem mkDirs_get_high {env : Env} :
    ∀ {comps : List String} {fs fs' : Fs} {base : Path},
      mkDirs env fs base comps = .ok fs' →
      ∀ q : Path, base.length + comps.length < q.length → Fs.get fs' q = Fs.get fs q := by
  intro comps
  induction comps with
  | nil => intro fs fs' base h q _; cases h; rfl
  | cons c rest ih =>
    intro fs fs' base h q hq
    unfold mkDirs at h
    split at h
    · cases h
    · next fsb hstep =>
      have h1 : Fs.get fs' q = Fs.get fsb q := by
        apply ih h
        simp only [List.length_append, List.length_cons, List.length_nil] at hq ⊢
        omega
      have h2 : Fs.get fsb q = Fs.get fs q := by
        apply mkdirStep_get_ne hstep
        intro hc
        rw [hc] at hq
        simp only [List.length_append, List.length_cons, List.length_nil] at hq
        omega
      rw [h1, h2]

theorem mkDirs_ensures {env : Env} :
    ∀ {comps : List String} {fs fs' : Fs} {base : Path},
      mkDirs env fs base comps = .ok fs' →
      ∀ extra : List String, extra ≠ [] → extra <+: comps →
        isDirLike env fs' (base ++ extra) = true := by
  intro comps
  induction comps with
  | nil =>
    intro fs fs' base h extra hne hpre
    rw [List.prefix_nil] at hpre
    exact absurd hpre hne
  | cons c rest ih =>
    intro fs fs' base h extra hne hpre
    unfold mkDirs at h
    split at h
    · cases h
    · next fsb hstep =>
      cases extra with
      | nil => exact absurd rfl hne
      | cons x xs =>
        rw [List.cons_prefix_cons] at hpre
        obtain ⟨hx, hxs⟩ := hpre
        subst hx
        cases xs with
        | nil =>
          have := mkdirStep_dirLike hstep
          exact isDirLike_mono (mkDirs_sub h) this
        | cons y ys =>
          rw [List.append_cons]
          exact ih h (y :: ys) (by simp) hxs

theorem mkDirs_noop {env : Env} :
    ∀ {comps : List String} {fs : Fs} {base : Path},
      (∀ extra : List String, extra ≠ [] → extra <+: comps →
        isDirLike env fs (base ++ extra) = true) →
      mkDirs env fs base comps = .ok fs := by
  intro comps
  induction comps with
  | nil => intro fs base _; rfl
  | cons c rest ih =>
    intro fs base hall
    have hstep : mkdirStep env fs (base ++ [c]) = .ok fs :=
      mkdirStep_noop (hall [c] (by simp) ⟨rest, rfl⟩)
    unfold mkDirs
    rw [hstep]
    apply ih
    intro extra hne hpre
    rw [List.append_assoc]
    apply hall (c :: extra) (by simp)
    rw [List.cons_prefix_cons]
    exact ⟨rfl, hpre⟩


/-- All strict ancestors of interest of a path are directories (or resolve
to source directories). -/
def dirsReady (env : Env) (fs : Fs) (p : Path) : Prop :=
  ∀ q : Path, q ≠ [] → q <+: p → isDirLike env fs q = true

theorem dirsReady_mono {env : Env} {f g : Fs} {p : Path}
    (hsub : Fs.Sub f g) (h : dirsReady env f p) : dirsReady env g p :=
  fun q hq hpre => isDirLike_mono hsub (h q hq hpre)

theorem createDirAll_sub {env : Env} {fs fs' : Fs} {p : Path}
    (h : createDirAll env fs p = .ok fs') : Fs.Sub fs fs' :=
  mkDirs_sub h

theorem createDirAll_get_high {env : Env} {fs fs' : Fs} {p : Path}
    (h : createDirAll env fs p = .ok fs') (q : Path) (hq : p.length < q.length) :
    Fs.get fs' q = Fs.get fs q :=
  mkDirs_get_high h q (by simpa using hq)

theorem createDirAll_ensures {env : Env} {fs fs' : Fs} {p : Path}
    (h : createDirAll env fs p = .ok fs') : dirsReady env fs' p := by
  intro q hq hpre
  have := mkDirs_ensures h q hq hpre
  simpa using this

theorem createDirAll_noop {env : Env} {fs : Fs} {p : Path}
    (h : dirsReady env fs p) : createDirAll env fs p = .ok fs := by
  apply mkDirs_noop
  intro extra hne hpre
  simpa using h extra hne hpre

theorem targetPath_dropLast (env : Env) (rel : Path) (name : String) (d : LuaDecision) :
    (targetPath env rel name d).dropLast = env.home ++ rel := by
  unfold targetPath
  exact List.dropLast_concat

theorem targetPath_length (env : Env) (rel : Path) (name : String) (d : LuaDecision) :
    (targetPath env rel name d).dropLast.length < (targetPath env rel name d).length := by
  rw [targetPath_dropLast]
  unfold targetPath
  simp

/-- On success the parent-directory stage never touches the target entry
itself (every path it writes is strictly shorter). -/
theorem dirStage_get_target {env : Env} {opts : Options} {fs fs1 : Fs} {t : Path}
    (h : dirStage env opts fs t.dropLast = .ok fs1)
    (hlen : t.dropLast.length < t.length) :
    Fs.get fs1 t = Fs.get fs t := by
  unfold dirStage at h
  split at h
  · cases h; rfl
  · exact createDirAll_get_high h t hlen

theorem dirStage_sub {env : Env} {opts : Options} {fs fs1 : Fs} {p : Path}
    (h : dirStage env opts fs p = .ok fs1) : Fs.Sub fs fs1 := by
  unfold dirStage at h
  split at h
  · cases h; exact Fs.Sub.refl _
  · exact createDirAll_sub h

/-- In non-dry mode a successful parent stage leaves every ancestor ready. -/
theorem dirStage_ready {env : Env} {opts : Options} {fs fs1 : Fs} {p : Path}
    (hdry : opts.dry_run = false)
    (h : dirStage env opts fs p = .ok fs1) : dirsReady env fs1 p := by
  unfold dirStage at h
  rw [hdry] at h
  simp only [Bool.false_eq_true, if_false] at h
  exact createDirAll_ensures h

/-- When every ancestor is already ready, the parent stage is a no-op. -/
theorem dirStage_noop {env : Env} {opts : Options} {fs : Fs} {p : Path}
    (h : dirsReady env fs p) : dirStage env opts fs p = .ok fs := by
  unfold dirStage
  split
  · rfl
  · exact createDirAll_noop h

theorem symlinkCreate_ok {fs fs' : Fs} {t s : Path}
    (h : symlinkCreate fs t s = .ok fs') :
    Fs.get fs t = none ∧ fs' = Fs.set fs t (.symlink s) := by
  unfold symlinkCreate at h
  split at h
  · cases h
  · next hget => cases h; exact ⟨hget, rfl⟩

/-- Full inversion of the no-conflict path. -/
theorem onAbsent_run {opts : Options} {d : LuaDecision} {source target : Path}
    {fs1 f : Fs} {c : WalkCounts}
    (h : onAbsent opts d source target fs1 = .ok (f, c)) :
    c = WalkCounts.planned1 ∧
      ((opts.dry_run = true ∧ f = fs1) ∨
       (opts.dry_run = false ∧
         ((∃ cc, d.transform = some cc ∧ f = Fs.set fs1 target (.file cc)) ∨
          (d.transform = none ∧ Fs.get fs1 target = none ∧
            f = Fs.set fs1 target (.symlink source))))) := by
  unfold onAbsent at h
  split at h
  · next cc htr =>
    split at h
    · next hdry => cases h; exact ⟨rfl, Or.inl ⟨by simpa using hdry, rfl⟩⟩
    · next hdry =>
      cases h
      exact ⟨rfl, Or.inr ⟨by simpa using hdry, Or.inl ⟨cc, htr, rfl⟩⟩⟩
  · next htr =>
    split at h
    · next hdry => cases h; exact ⟨rfl, Or.inl ⟨by simpa using hdry, rfl⟩⟩
    · next hdry =>
      split at h
      · cases h
      · next fs2 hsym =>
        cases h
        obtain ⟨hget, rfl⟩ := symlinkCreate_ok hsym
        exact ⟨rfl, Or.inr ⟨by simpa using hdry, Or.inr ⟨htr, hget, rfl⟩⟩⟩

/-- Inversion of the destructive override branch. -/
theorem overrideReplace_run {d : LuaDecision} {source target : Path} {fs1 f : Fs}
    {c : WalkCounts}
    (h : overrideReplace d source target fs1 = .ok (f, c)) :
    c = WalkCounts.plannedOverride1 ∧
      ((∃ cc, d.transform = some cc ∧
          f = Fs.set (Fs.erase fs1 target) target (.file cc)) ∨
       (d.transform = none ∧
          f = Fs.set (Fs.erase fs1 target) target (.symlink source))) := by
  unfold overrideReplace at h
  split at h
  · next cc htr => cases h; exact ⟨rfl, Or.inl ⟨cc, htr, rfl⟩⟩
  · next htr =>
    split at h
    · cases h
    · next fs3 hsym =>
      cases h
      obtain ⟨hget, rfl⟩ := symlinkCreate_ok hsym
      exact ⟨rfl, Or.inr ⟨htr, rfl⟩⟩

/-- Abbreviation for the already-satisfied test of the conflict path. -/
def satCond (env : Env) (d : LuaDecision) (source : Path) (content : String)
    (target : Path) (fs1 : Fs) : Bool :=
  (classifyTarget env fs1 d.transform source content target).alreadyLinked
    || (d.transform.isSome
      && (classifyTarget env fs1 d.transform source content target).identical)

/-- Abbreviation for the override test of the conflict path. -/
def ovCond (env : Env) (opts : Options) (d : LuaDecision) (source : Path)
    (content : String) (target : Path) (fs1 : Fs) : Bool :=
  opts.override_identical
    && (classifyTarget env fs1 d.transform source content target).identical
    && !opts.dry_run && !(isDirLike env fs1 target)

/-- Full inversion of the conflict path. -/
theorem onExisting_run {env : Env} {opts : Options} {d : LuaDecision} {source : Path}
    {content : String} {target : Path} {fs1 f : Fs} {c : WalkCounts}
    (h : onExisting env opts d source content target fs1 = .ok (f, c)) :
    (satCond env d source content target fs1 = true ∧
       f = fs1 ∧ c = WalkCounts.planned1) ∨
    (satCond env d source content target fs1 = false ∧
       ovCond env opts d source content target fs1 = true ∧
       overrideReplace d source target fs1 = .ok (f, c)) ∨
    (satCond env d source content target fs1 = false ∧
       ovCond env opts d source content target fs1 = false ∧
       f = fs1 ∧ c = WalkCounts.conflict1) := by
  unfold onExisting at h
  unfold satCond ovCond
  split at h
  · next hsat => cases h; exact Or.inl ⟨hsat, rfl, rfl⟩
  · next hsat =>
    split at h
    · next hov =>
      exact Or.inr (Or.inl ⟨by simpa using hsat, hov, h⟩)
    · next hov =>
      cases h
      exact Or.inr (Or.inr ⟨by simpa using hsat, by simpa using hov, rfl, rfl⟩)

/-- Forward equations for the conflict path. -/
theorem onExisting_eq_sat {env : Env} {opts : Options} {d : LuaDecision} {source : Path}
    {content : String} {target : Path} {fs1 : Fs}
    (hsat : satCond env d source content target fs1 = true) :
    onExisting env opts d source content target fs1 = .ok (fs1, WalkCounts.planned1) := by
  unfold satCond at hsat
  unfold onExisting
  rw [if_pos hsat]

theorem onExisting_eq_conflict {env : Env} {opts : Options} {d : LuaDecision}
    {source : Path} {content : String} {target : Path} {fs1 : Fs}
    (hsat : satCond env d source content target fs1 = false)
    (hov : ovCond env opts d source content target fs1 = false) :
    onExisting env opts d source content target fs1 = .ok (fs1, WalkCounts.conflict1) := by
  unfold satCond at hsat
  unfold ovCond at hov
  unfold onExisting
  rw [if_neg (by simp [hsat]), if_neg (by simp [hov])]

/-- Full inversion of the per-file processing. -/
theorem processFile_run {env : Env} {opts : Options} {rel : Path} {sib : List SrcEntry}
    {name content : String} {fs f1 : Fs} {c1 : WalkCounts}
    (h : processFile env opts rel sib name content fs = .ok (f1, c1)) :
    ∃ d, decideFile env sib name content = .ok d ∧
      ((d.include_ = false ∧ f1 = fs ∧ c1 = WalkCounts.skip1) ∨
       (d.include_ = true ∧ ∃ fsA,
         dirStage env opts fs (targetPath env rel name d).dropLast = .ok fsA ∧
         (((∃ e0, Fs.get fsA (targetPath env rel name d) = some e0) ∧
            onExisting env opts d (sourcePath env rel name) content
              (targetPath env rel name d) fsA = .ok (f1, c1)) ∨
          (Fs.get fsA (targetPath env rel name d) = none ∧
            onAbsent opts d (sourcePath env rel name)
              (targetPath env rel name d) fsA = .ok (f1, c1))))) := by
  unfold processFile at h
  split at h
  · cases h
  · next d hdec =>
    refine ⟨d, hdec, ?_⟩
    split at h
    · next hninc =>
      cases h
      exact Or.inl ⟨by simpa using hninc, rfl, rfl⟩
    · next hninc =>
      have hinc : d.include_ = true := by simpa using hninc
      split at h
      · cases h
      · next fsA hstage =>
        refine Or.inr ⟨hinc, fsA, hstage, ?_⟩
        split at h
        · next e0 hget => exact Or.inl ⟨⟨e0, hget⟩, h⟩
        · next hget => exact Or.inr ⟨hget, h⟩

/-- Forward equation: a successful include decision and parent stage reduce
the per-file processing to the dispatch on the destination entry. -/
theorem processFile_eq_included {env : Env} {opts : Options} {rel : Path}
    {sib : List SrcEntry} {name content : String} {fs fsA : Fs} {d : LuaDecision}
    (hdec : decideFile env sib name content = .ok d) (hinc : d.include_ = true)
    (hstage : dirStage env opts fs (targetPath env rel name d).dropLast = .ok fsA) :
    processFile env opts rel sib name content fs =
      match Fs.get fsA (targetPath env rel name d) with
      | some _ => onExisting env opts d (sourcePath env rel name) content
          (targetPath env rel name d) fsA
      | none => onAbsent opts d (sourcePath env rel name)
          (targetPath env rel name d) fsA := by
  unfold processFile
  rw [hdec]
  simp only [hinc, Bool.not_true, Bool.false_eq_true, if_false, hstage]



@[simp] theorem WalkCounts.add_planned (a b : WalkCounts) :
    (a.add b).planned = a.planned + b.planned := rfl
@[simp] theorem WalkCounts.add_conflicts (a b : WalkCounts) :
    (a.add b).conflicts = a.conflicts + b.conflicts := rfl
@[simp] theorem WalkCounts.add_skips (a b : WalkCounts) :
    (a.add b).skips = a.skips + b.skips := rfl
@[simp] theorem WalkCounts.add_overrides (a b : WalkCounts) :
    (a.add b).overrides = a.overrides + b.overrides := rfl

theorem WalkCounts.zero_add (c : WalkCounts) : WalkCounts.zero.add c = c := by
  cases c; simp [WalkCounts.add, WalkCounts.zero]

theorem WalkCounts.add_zero (c : WalkCounts) : c.add WalkCounts.zero = c := by
  cases c; simp [WalkCounts.add, WalkCounts.zero]

theorem WalkCounts.add_assoc (a b c : WalkCounts) :
    (a.add b).add c = a.add (b.add c) := by
  simp [WalkCounts.add, Nat.add_assoc]

theorem dirStage_dry {env : Env} {opts : Options} {fs : Fs} {p : Path}
    (hdry : opts.dry_run = true) : dirStage env opts fs p = .ok fs := by
  unfold dirStage
  rw [hdry]
  rfl

theorem ovCond_dry {env : Env} {opts : Options} {d : LuaDecision} {source : Path}
    {content : String} {target : Path} {fs1 : Fs}
    (hdry : opts.dry_run = true) :
    ovCond env opts d source content target fs1 = false := by
  unfold ovCond
  rw [hdry]
  simp

theorem processFile_sub {env : Env} {opts : Options} {rel : Path} {sib : List SrcEntry}
    {name content : String} {fs f1 : Fs} {c1 : WalkCounts}
    (h : processFile env opts rel sib name content fs = .ok (f1, c1))
    (ho : c1.overrides = 0) : Fs.Sub fs f1 := by
  obtain ⟨d, hdec, hcase⟩ := processFile_run h
  rcases hcase with ⟨_, rfl, rfl⟩ | ⟨hinc, fsA, hstage, hrest⟩
  · exact Fs.Sub.refl _
  · have hs0A : Fs.Sub fs fsA := dirStage_sub hstage
    rcases hrest with ⟨⟨e0, hget⟩, hex⟩ | ⟨hget, hab⟩
    · rcases onExisting_run hex with ⟨_, rfl, rfl⟩ | ⟨_, _, hovr⟩ | ⟨_, _, rfl, rfl⟩
      · exact hs0A
      · obtain ⟨rfl, _⟩ := overrideReplace_run hovr
        simp [WalkCounts.plannedOverride1] at ho
      · exact hs0A
    · obtain ⟨rfl, hrest⟩ := onAbsent_run hab
      rcases hrest with ⟨_, rfl⟩ | ⟨_, ⟨cc, htr, rfl⟩ | ⟨_, _, rfl⟩⟩
      · exact hs0A
      · exact hs0A.trans (Fs.Sub.set_absent _ hget)
      · exact hs0A.trans (Fs.Sub.set_absent _ hget)

theorem processFile_dry {env : Env} {opts : Options} {rel : Path} {sib : List SrcEntry}
    {name content : String} {fs f1 : Fs} {c1 : WalkCounts}
    (hdry : opts.dry_run = true)
    (h : processFile env opts rel sib name content fs = .ok (f1, c1)) :
    f1 = fs ∧ c1.overrides = 0 ∧ c1.planned + c1.conflicts + c1.skips = 1 := by
  obtain ⟨d, hdec, hcase⟩ := processFile_run h
  rcases hcase with ⟨_, rfl, rfl⟩ | ⟨hinc, fsA, hstage, hrest⟩
  · exact ⟨rfl, rfl, rfl⟩
  · rw [dirStage_dry hdry] at hstage
    cases hstage
    rcases hrest with ⟨⟨e0, hget⟩, hex⟩ | ⟨hget, hab⟩
    · rcases onExisting_run hex with ⟨_, rfl, rfl⟩ | ⟨_, hov, _⟩ | ⟨_, _, rfl, rfl⟩
      · exact ⟨rfl, rfl, rfl⟩
      · rw [ovCond_dry hdry] at hov
        cases hov
      · exact ⟨rfl, rfl, rfl⟩
    · obtain ⟨rfl, hrest⟩ := onAbsent_run hab
      rcases hrest with ⟨_, rfl⟩ | ⟨hdry2, _⟩
      · exact ⟨rfl, rfl, rfl⟩
      · rw [hdry] at hdry2
        cases hdry2



theorem processFile_eq_skip {env : Env} {opts : Options} {rel : Path}
    {sib : List SrcEntry} {name content : String} {fs : Fs} {d : LuaDecision}
    (hdec : decideFile env sib name content = .ok d) (hinc : d.include_ = false) :
    processFile env opts rel sib name content fs = .ok (fs, WalkCounts.skip1) := by
  unfold processFile
  rw [hdec]
  simp only [hinc, Bool.not_false, if_true]

theorem readFs_of_file {env : Env} {g : Fs} {t : Path} {cc : String}
    (hget : Fs.get g t = some (.file cc)) : readFs env g t = some cc := by
  unfold readFs
  rw [hget]

theorem satCond_congr {env : Env} {d : LuaDecision} {source : Path} {content : String}
    {target : Path} {fs1 fs2 : Fs}
    (h : Fs.get fs1 target = Fs.get fs2 target) :
    satCond env d source content target fs1 = satCond env d source content target fs2 := by
  unfold satCond
  rw [classifyTarget_congr h]

theorem satCond_of_transform_read {env : Env} {d : LuaDecision} {source : Path}
    {content : String} {target : Path} {g : Fs} {cc : String}
    (htr : d.transform = some cc) (hread : readFs env g target = some cc) :
    satCond env d source content target g = true := by
  simp [satCond, classifyTarget, htr, hread]

theorem satCond_of_symlink {env : Env} {d : LuaDecision} {source : Path}
    {content : String} {target : Path} {g : Fs}
    (htr : d.transform = none) (hget : Fs.get g target = some (.symlink source)) :
    satCond env d source content target g = true := by
  simp [satCond, classifyTarget, htr, readLink, hget]

/-- Re-processing one included file against any filesystem that contains
everything the first, conflict-free and override-free, non-dry run left
behind is a pure no-op with the same counters. -/
theorem processFile_rerun {env : Env} {opts : Options} {rel : Path} {sib : List SrcEntry}
    {name content : String} {fs f1 g : Fs} {c1 : WalkCounts}
    (hdry : opts.dry_run = false)
    (h : processFile env opts rel sib name content fs = .ok (f1, c1))
    (hc : c1.conflicts = 0) (ho : c1.overrides = 0)
    (hsub : Fs.Sub f1 g) :
    processFile env opts rel sib name content g = .ok (g, c1) := by
  obtain ⟨d, hdec, hcase⟩ := processFile_run h
  rcases hcase with ⟨hninc, rfl, rfl⟩ | ⟨hinc, fsA, hstage, hrest⟩
  · exact processFile_eq_skip hdec hninc
  · have hready : dirsReady env fsA (targetPath env rel name d).dropLast :=
      dirStage_ready hdry hstage
    rcases hrest with ⟨⟨e0, hget⟩, hex⟩ | ⟨hget, hab⟩
    · -- conflict path in run 1: must have been already satisfied
      rcases onExisting_run hex with ⟨hsat, rfl, rfl⟩ | ⟨_, _, hovr⟩ | ⟨_, _, rfl, rfl⟩
      · -- already satisfied: the filesystem did not change
        have hgetg : Fs.get g (targetPath env rel name d) = some e0 := hsub _ _ hget
        have hreadyg : dirsReady env g (targetPath env rel name d).dropLast :=
          dirsReady_mono hsub hready
        rw [processFile_eq_included hdec hinc (dirStage_noop hreadyg), hgetg]
        exact onExisting_eq_sat ((satCond_congr (hget.trans hgetg.symm)).symm.trans hsat)
      · obtain ⟨rfl, _⟩ := overrideReplace_run hovr
        simp [WalkCounts.plannedOverride1] at ho
      · simp [WalkCounts.conflict1] at hc
    · -- absent in run 1: the run materialized the entry
      obtain ⟨rfl, hrest⟩ := onAbsent_run hab
      rcases hrest with ⟨hd, _⟩ | ⟨_, ⟨cc, htr, rfl⟩ | ⟨htr, _, rfl⟩⟩
      · rw [hdry] at hd
        cases hd
      · -- transform write
        have hsubA : Fs.Sub fsA g :=
          (Fs.Sub.set_absent _ hget).trans hsub
        have hgetg : Fs.get g (targetPath env rel name d) = some (.file cc) := by
          apply hsub
          rw [Fs.get_set]
          simp
        have hreadyg : dirsReady env g (targetPath env rel name d).dropLast :=
          dirsReady_mono hsubA hready
        rw [processFile_eq_included hdec hinc (dirStage_noop hreadyg), hgetg]
        exact onExisting_eq_sat (satCond_of_transform_read htr (readFs_of_file hgetg))
      · -- symlink creation
        have hsubA : Fs.Sub fsA g :=
          (Fs.Sub.set_absent _ hget).trans hsub
        have hgetg : Fs.get g (targetPath env rel name d) =
            some (.symlink (sourcePath env rel name)) := by
          apply hsub
          rw [Fs.get_set]
          simp
        have hreadyg : dirsReady env g (targetPath env rel name d).dropLast :=
          dirsReady_mono hsubA hready
        rw [processFile_eq_included hdec hinc (dirStage_noop hreadyg), hgetg]
        exact onExisting_eq_sat (satCond_of_symlink htr hgetg)



theorem walk_sub {env : Env} {opts : Options} :
    ∀ (rel : Path) (sib todo : List SrcEntry) (fs : Fs) {fs' : Fs} {c : WalkCounts},
      walkEntries env opts rel sib todo fs = .ok (fs', c) → c.overrides = 0 →
      Fs.Sub fs fs' := by
  intro rel sib todo fs
  induction rel, sib, todo, fs using walkEntries.induct env opts with
  | case1 rel sib fs =>
    intro fs' c h ho
    simp only [walkEntries] at h
    cases h
    exact Fs.Sub.refl _
  | case2 rel sib e rest fs hcomp ih =>
    intro fs' c h ho
    cases e with
    | dir n sub =>
      rw [walkEntries.eq_2, if_pos hcomp] at h
      exact ih h ho
    | file n content =>
      rw [walkEntries.eq_3, if_pos hcomp] at h
      exact ih h ho
  | case3 rel sib rest fs n sub err herr hcomp ihsub =>
    intro fs' c h ho
    simp only [walkEntries, if_neg hcomp, herr] at h
    exact Except.noConfusion h
  | case4 rel sib rest fs n sub fs2 c2 hsub err hrest hcomp ihsub ihrest =>
    intro fs' c h ho
    simp only [walkEntries, if_neg hcomp, hsub, hrest] at h
    exact Except.noConfusion h
  | case5 rel sib rest fs n sub fs2 c2 hsub fs3 c3 hrest hcomp ihsub ihrest =>
    intro fs' c h ho
    simp only [walkEntries, if_neg hcomp, hsub, hrest] at h
    obtain ⟨rfl, rfl⟩ : fs3 = fs' ∧ WalkCounts.add c2 c3 = c := by
      simpa [Prod.ext_iff] using h
    simp only [WalkCounts.add_overrides, Nat.add_eq_zero] at ho
    exact (ihsub hsub ho.1).trans (ihrest hrest ho.2)
  | case6 rel sib rest fs n content err herr hcomp =>
    intro fs' c h ho
    simp only [walkEntries, if_neg hcomp, herr] at h
    exact Except.noConfusion h
  | case7 rel sib rest fs n content fs2 c2 hpf err hrest hcomp ihrest =>
    intro fs' c h ho
    simp only [walkEntries, if_neg hcomp, hpf, hrest] at h
    exact Except.noConfusion h
  | case8 rel sib rest fs n content fs2 c2 hpf fs3 c3 hrest hcomp ihrest =>
    intro fs' c h ho
    simp only [walkEntries, if_neg hcomp, hpf, hrest] at h
    obtain ⟨rfl, rfl⟩ : fs3 = fs' ∧ WalkCounts.add c2 c3 = c := by
      simpa [Prod.ext_iff] using h
    simp only [WalkCounts.add_overrides, Nat.add_eq_zero] at ho
    exact (processFile_sub hpf ho.1).trans (ihrest hrest ho.2)



theorem walk_dry {env : Env} {opts : Options} (hdry : opts.dry_run = true) :
    ∀ (rel : Path) (sib todo : List SrcEntry) (fs : Fs) {fs' : Fs} {c : WalkCounts},
      walkEntries env opts rel sib todo fs = .ok (fs', c) →
      fs' = fs ∧ c.overrides = 0 ∧
        c.planned + c.conflicts + c.skips = fileCount sib todo := by
  intro rel sib todo fs
  induction rel, sib, todo, fs using walkEntries.induct env opts with
  | case1 rel sib fs =>
    intro fs' c h
    simp only [walkEntries] at h
    cases h
    simp [fileCount, WalkCounts.zero]
  | case2 rel sib e rest fs hcomp ih =>
    intro fs' c h
    cases e with
    | dir n sub =>
      rw [walkEntries.eq_2, if_pos hcomp] at h
      obtain ⟨rfl, ho, hsum⟩ := ih h
      refine ⟨rfl, ho, ?_⟩
      rw [fileCount.eq_2, if_pos hcomp]
      exact hsum
    | file n content =>
      rw [walkEntries.eq_3, if_pos hcomp] at h
      obtain ⟨rfl, ho, hsum⟩ := ih h
      refine ⟨rfl, ho, ?_⟩
      rw [fileCount.eq_3, if_pos hcomp]
      exact hsum
  | case3 rel sib rest fs n sub err herr hcomp ihsub =>
    intro fs' c h
    simp only [walkEntries, if_neg hcomp, herr] at h
    exact Except.noConfusion h
  | case4 rel sib rest fs n sub fs2 c2 hsub err hrest hcomp ihsub ihrest =>
    intro fs' c h
    simp only [walkEntries, if_neg hcomp, hsub, hrest] at h
    exact Except.noConfusion h
  | case5 rel sib rest fs n sub fs2 c2 hsub fs3 c3 hrest hcomp ihsub ihrest =>
    intro fs' c h
    simp only [walkEntries, if_neg hcomp, hsub, hrest] at h
    obtain ⟨rfl, rfl⟩ : fs3 = fs' ∧ WalkCounts.add c2 c3 = c := by
      simpa [Prod.ext_iff] using h
    obtain ⟨rfl, ho2, hsum2⟩ := ihsub hsub
    obtain ⟨rfl, ho3, hsum3⟩ := ihrest hrest
    refine ⟨rfl, by simp [ho2, ho3], ?_⟩
    rw [fileCount.eq_2, if_neg hcomp]
    simp only [WalkCounts.add_planned, WalkCounts.add_conflicts, WalkCounts.add_skips]
    omega
  | case6 rel sib rest fs n content err herr hcomp =>
    intro fs' c h
    simp only [walkEntries, if_neg hcomp, herr] at h
    exact Except.noConfusion h
  | case7 rel sib rest fs n content fs2 c2 hpf err hrest hcomp ihrest =>
    intro fs' c h
    simp only [walkEntries, if_neg hcomp, hpf, hrest] at h
    exact Except.noConfusion h
  | case8 rel sib rest fs n content fs2 c2 hpf fs3 c3 hrest hcomp ihrest =>
    intro fs' c h
    simp only [walkEntries, if_neg hcomp, hpf, hrest] at h
    obtain ⟨rfl, rfl⟩ : fs3 = fs' ∧ WalkCounts.add c2 c3 = c := by
      simpa [Prod.ext_iff] using h
    obtain ⟨rfl, ho2, hsum2⟩ := processFile_dry hdry hpf
    obtain ⟨rfl, ho3, hsum3⟩ := ihrest hrest
    refine ⟨rfl, by simp [ho2, ho3], ?_⟩
    rw [fileCount.eq_3, if_neg hcomp]
    simp only [WalkCounts.add_planned, WalkCounts.add_conflicts, WalkCounts.add_skips]
    omega



/-- Re-walking a subtree against any filesystem containing everything a
conflict-free, override-free, non-dry first walk produced is a no-op with
identical counters. -/
theorem walk_rerun {env : Env} {opts : Options} (hdry : opts.dry_run = false) :
    ∀ (rel : Path) (sib todo : List SrcEntry) (fs : Fs) {fs' g : Fs} {c : WalkCounts},
      walkEntries env opts rel sib todo fs = .ok (fs', c) →
      c.conflicts = 0 → c.overrides = 0 → Fs.Sub fs' g →
      walkEntries env opts rel sib todo g = .ok (g, c) := by
  intro rel sib todo fs
  induction rel, sib, todo, fs using walkEntries.induct env opts with
  | case1 rel sib fs =>
    intro fs' g c h hc ho hsub
    simp only [walkEntries] at h
    cases h
    simp [walkEntries]
  | case2 rel sib e rest fs hcomp ih =>
    intro fs' g c h hc ho hsub
    cases e with
    | dir n sub =>
      rw [walkEntries.eq_2, if_pos hcomp] at h ⊢
      exact ih h hc ho hsub
    | file n content =>
      rw [walkEntries.eq_3, if_pos hcomp] at h ⊢
      exact ih h hc ho hsub
  | case3 rel sib rest fs n sub err herr hcomp ihsub =>
    intro fs' g c h hc ho hsub
    simp only [walkEntries, if_neg hcomp, herr] at h
    exact Except.noConfusion h
  | case4 rel sib rest fs n sub fs2 c2 hwsub err hrest hcomp ihsub ihrest =>
    intro fs' g c h hc ho hsub
    simp only [walkEntries, if_neg hcomp, hwsub, hrest] at h
    exact Except.noConfusion h
  | case5 rel sib rest fs n sub fs2 c2 hwsub fs3 c3 hrest hcomp ihsub ihrest =>
    intro fs' g c h hc ho hsub
    simp only [walkEntries, if_neg hcomp, hwsub, hrest] at h
    obtain ⟨rfl, rfl⟩ : fs3 = fs' ∧ WalkCounts.add c2 c3 = c := by
      simpa [Prod.ext_iff] using h
    simp only [WalkCounts.add_conflicts, Nat.add_eq_zero] at hc
    simp only [WalkCounts.add_overrides, Nat.add_eq_zero] at ho
    have hsub23 : Fs.Sub fs2 g := (walk_sub _ _ _ _ hrest ho.2).trans hsub
    have h1 : walkEntries env opts (rel ++ [n]) sub sub g = .ok (g, c2) :=
      ihsub hwsub hc.1 ho.1 hsub23
    have h2 : walkEntries env opts rel sib rest g = .ok (g, c3) :=
      ihrest hrest hc.2 ho.2 hsub
    simp only [walkEntries, if_neg hcomp, h1, h2]
  | case6 rel sib rest fs n content err herr hcomp =>
    intro fs' g c h hc ho hsub
    simp only [walkEntries, if_neg hcomp, herr] at h
    exact Except.noConfusion h
  | case7 rel sib rest fs n content fs2 c2 hpf err hrest hcomp ihrest =>
    intro fs' g c h hc ho hsub
    simp only [walkEntries, if_neg hcomp, hpf, hrest] at h
    exact Except.noConfusion h
  | case8 rel sib rest fs n content fs2 c2 hpf fs3 c3 hrest hcomp ihrest =>
    intro fs' g c h hc ho hsub
    simp only [walkEntries, if_neg hcomp, hpf, hrest] at h
    obtain ⟨rfl, rfl⟩ : fs3 = fs' ∧ WalkCounts.add c2 c3 = c := by
      simpa [Prod.ext_iff] using h
    simp only [WalkCounts.add_conflicts, Nat.add_eq_zero] at hc
    simp only [WalkCounts.add_overrides, Nat.add_eq_zero] at ho
    have hsub23 : Fs.Sub fs2 g := (walk_sub _ _ _ _ hrest ho.2).trans hsub
    have h1 : processFile env opts rel sib n content g = .ok (g, c2) :=
      processFile_rerun hdry hpf hc.1 ho.1 hsub23
    have h2 : walkEntries env opts rel sib rest g = .ok (g, c3) :=
      ihrest hrest hc.2 ho.2 hsub
    simp only [walkEntries, if_neg hcomp, h1, h2]

/-- Walking a concatenated listing is walking the two halves in sequence,
with the counters added. -/
theorem walk_append {env : Env} {opts : Options} :
    ∀ (l1 : List SrcEntry) {l2 : List SrcEntry} {rel : Path} {sib : List SrcEntry}
      {fs f1 f2 : Fs} {c1 c2 : WalkCounts},
      walkEntries env opts rel sib l1 fs = .ok (f1, c1) →
      walkEntries env opts rel sib l2 f1 = .ok (f2, c2) →
      walkEntries env opts rel sib (l1 ++ l2) fs = .ok (f2, c1.add c2) := by
  intro l1
  induction l1 with
  | nil =>
    intro l2 rel sib fs f1 f2 c1 c2 h1 h2
    simp only [walkEntries] at h1
    cases h1
    rw [List.nil_append, WalkCounts.zero_add]
    exact h2
  | cons e rest ih =>
    intro l2 rel sib fs f1 f2 c1 c2 h1 h2
    rw [List.cons_append]
    cases e with
    | dir n sub =>
      by_cases hcomp : isCompanionToSibling sib (SrcEntry.dir n sub).name = true
      · rw [walkEntries.eq_2, if_pos hcomp] at h1 ⊢
        exact ih h1 h2
      · rw [walkEntries.eq_2, if_neg hcomp] at h1
        cases hs : walkEntries env opts (rel ++ [n]) sub sub fs with
        | error err => rw [hs] at h1; exact Except.noConfusion h1
        | ok p =>
          obtain ⟨fsa, ca⟩ := p
          rw [hs] at h1
          simp only at h1
          cases hr : walkEntries env opts rel sib rest fsa with
          | error err => rw [hr] at h1; exact Except.noConfusion h1
          | ok q =>
            obtain ⟨fsb, cb⟩ := q
            rw [hr] at h1
            simp only at h1
            obtain ⟨rfl, rfl⟩ : fsb = f1 ∧ WalkCounts.add ca cb = c1 := by
              simpa [Prod.ext_iff] using h1
            have hrec := ih hr h2
            simp only [walkEntries.eq_2, if_neg hcomp, hs, hrec]
            rw [WalkCounts.add_assoc]
    | file n content =>
      by_cases hcomp : isCompanionToSibling sib (SrcEntry.file n content).name = true
      · rw [walkEntries.eq_3, if_pos hcomp] at h1 ⊢
        exact ih h1 h2
      · rw [walkEntries.eq_3, if_neg hcomp] at h1
        cases hs : processFile env opts rel sib n content fs with
        | error err => rw [hs] at h1; exact Except.noConfusion h1
        | ok p =>
          obtain ⟨fsa, ca⟩ := p
          rw [hs] at h1
          simp only at h1
          cases hr : walkEntries env opts rel sib rest fsa with
          | error err => rw [hr] at h1; exact Except.noConfusion h1
          | ok q =>
            obtain ⟨fsb, cb⟩ := q
            rw [hr] at h1
            simp only at h1
            obtain ⟨rfl, rfl⟩ : fsb = f1 ∧ WalkCounts.add ca cb = c1 := by
              simpa [Prod.ext_iff] using h1
            have hrec := ih hr h2
            simp only [walkEntries.eq_3, if_neg hcomp, hs, hrec]
            rw [WalkCounts.add_assoc]



/-! ### Decision-shape lemmas -/

theorem decisionOfValue_exclude {v : LuaValue} {src : String} {d : LuaDecision}
    (h : decisionOfValue v src = .ok d) (hinc : d.include_ = false) :
    v = .boolean false ∧ d.rename_to = none ∧ d.transform = none := by
  cases v with
  | boolean b =>
    simp only [decisionOfValue, Except.ok.injEq] at h
    cases h
    cases b
    · exact ⟨rfl, rfl, rfl⟩
    · cases hinc
  | table t =>
    simp only [decisionOfValue] at h
    split at h
    · split at h
      · exact Except.noConfusion h
      · split at h
        · exact Except.noConfusion h
        · unfold tableTransform at h
          split at h
          · split at h
            · cases h
              cases hinc
            · exact Except.noConfusion h
          · cases h
            cases hinc
    · unfold tableTransform at h
      split at h
      · split at h
        · cases h
          cases hinc
        · exact Except.noConfusion h
      · cases h
        cases hinc
  | other tn => exact Except.noConfusion h

theorem decisionOfValue_table_include {t : LuaTable} {src : String} {d : LuaDecision}
    (h : decisionOfValue (.table t) src = .ok d) : d.include_ = true := by
  by_cases hinc : d.include_ = true
  · exact hinc
  · obtain ⟨hv, -, -⟩ := decisionOfValue_exclude h (by simpa using hinc)
    exact LuaValue.noConfusion hv

theorem decideFile_exclude {env : Env} {sib : List SrcEntry} {name content : String}
    {d : LuaDecision}
    (h : decideFile env sib name content = .ok d) (hinc : d.include_ = false) :
    d.rename_to = none ∧ d.transform = none := by
  unfold decideFile at h
  split at h
  · unfold lua_decision at h
    split at h
    · exact Except.noConfusion h
    · exact (decisionOfValue_exclude h hinc).2
  · exact Except.noConfusion h
  · cases h
    cases hinc

/-! ### Classification support lemmas -/

theorem alreadyLinked_imp_identical {env : Env} {fs : Fs} {t? : Option String}
    {s : Path} {c : String} {target : Path}
    (h : (classifyTarget env fs t? s c target).alreadyLinked = true) :
    (classifyTarget env fs t? s c target).identical = true := by
  unfold classifyTarget at *
  cases t? with
  | some cc => simp at h
  | none =>
    simp only at h ⊢
    rw [h]
    rfl

theorem satCond_false_of_not_identical {env : Env} {d : LuaDecision} {source : Path}
    {content : String} {target : Path} {fs1 : Fs}
    (hid : (classifyTarget env fs1 d.transform source content target).identical = false) :
    satCond env d source content target fs1 = false := by
  unfold satCond
  rw [hid]
  simp only [Bool.and_false, Bool.or_false]
  by_cases hl : (classifyTarget env fs1 d.transform source content target).alreadyLinked = true
  · rw [alreadyLinked_imp_identical hl] at hid
    exact absurd hid (by simp)
  · simpa using hl

theorem ovCond_false_of_override_off {env : Env} {opts : Options} {d : LuaDecision}
    {source : Path} {content : String} {target : Path} {fs1 : Fs}
    (hov : opts.override_identical = false) :
    ovCond env opts d source content target fs1 = false := by
  unfold ovCond
  rw [hov]
  simp



/-! ### Concrete fixtures used by the witnesses -/

/-- A Lua collaborator knowing the single chunk `return false`. -/
def luaEvalEx : String → Except String LuaValue := fun s =>
  if s = "return false" then .ok (.boolean false) else .error "unknown chunk"

/-- The spec's concrete scenario (section 8): a root file, a conflict two
levels deep, and a skip in a sibling subdirectory. -/
def treeEx : List SrcEntry :=
  [ .file "a" "A",
    .dir "d" [ .dir "e" [ .file "c" "C" ] ],
    .dir "s" [ .file "b" "B", .file "b.lua" "return false" ] ]

def envEx : Env := { root := ["r"], home := ["h"], tree := treeEx, luaEval := luaEvalEx }

def optsStd : Options := ⟨false, false, false, false⟩
def optsDry : Options := ⟨true, false, false, false⟩

/-- The destination already holds a different `d/e/c`. -/
def fsConflictEx : Fs := [(["h", "d", "e", "c"], .file "X")]

def tree1 : List SrcEntry := [ .file "f" "x" ]

def env1 : Env :=
  { root := ["r"], home := ["h"], tree := tree1, luaEval := fun _ => .error "no chunk" }

/-- The filesystem `env1`'s run produces from an empty destination. -/
def fs1Run : Fs := [(["h", "f"], .symlink ["r", "f"]), (["h"], .dir)]

/-- **C1.**  Idempotence of reconciliation: when a non-dry run from some
initial destination fully reconciles the tree (no conflicts, no
overrides), running the reconciler a second time against the resulting
destination performs zero filesystem mutations (the filesystem value is
returned unchanged) and reports the same four counters, every included
entry being classified already-satisfied (hence counted under `planned`,
with `conflicts` and `overrides` still zero). -/
theorem reconcile_idempotent (env : Env) (opts : Options) (fs1 : Fs) (c1 : WalkCounts)
    (hdry : opts.dry_run = false)
    (h1 : runWalk env opts [] = .ok (fs1, c1))
    (hc : c1.conflicts = 0) (ho : c1.overrides = 0) :
    runWalk env opts fs1 = .ok (fs1, c1) :=
  walk_rerun hdry [] env.tree env.tree [] h1 hc ho (Fs.Sub.refl fs1)

set_option maxRecDepth 400000 in
theorem reconcile_idempotent_witness :
    runWalk env1 optsStd [] = .ok (fs1Run, ⟨1, 0, 0, 0⟩) ∧
    runWalk env1 optsStd fs1Run = .ok (fs1Run, ⟨1, 0, 0, 0⟩) :=
  ⟨by rw [runWalk_eval]; exact rfl,
   reconcile_idempotent env1 optsStd fs1Run ⟨1, 0, 0, 0⟩ rfl
     (by rw [runWalk_eval]; exact rfl) rfl rfl⟩

/-- **C2.**  Conflicts are never silently resolved: for an included entry
whose destination exists with content not identical to the desired
content, with override mode disabled, processing the entry returns
exactly one conflict (and nothing else) and the destination entry is
byte-for-byte untouched. -/
theorem conflict_never_resolved (env : Env) (opts : Options) (rel : Path)
    (sib : List SrcEntry) (name content : String) (fs f1 : Fs) (c1 : WalkCounts)
    (d : LuaDecision) (e0 : FsEntry)
    (hov : opts.override_identical = false)
    (hdec : decideFile env sib name content = .ok d)
    (hinc : d.include_ = true)
    (hex : Fs.get fs (targetPath env rel name d) = some e0)
    (hdif : (classifyTarget env fs d.transform (sourcePath env rel name) content
        (targetPath env rel name d)).identical = false)
    (hrun : processFile env opts rel sib name content fs = .ok (f1, c1)) :
    c1 = WalkCounts.conflict1 ∧
    Fs.get f1 (targetPath env rel name d) = some e0 := by
  obtain ⟨d', hdec', hcase⟩ := processFile_run hrun
  rw [hdec] at hdec'
  cases hdec'
  rcases hcase with ⟨hninc, -, -⟩ | ⟨-, fsA, hstage, hrest⟩
  · rw [hinc] at hninc
    cases hninc
  · have hgetA : Fs.get fsA (targetPath env rel name d) =
        Fs.get fs (targetPath env rel name d) :=
      dirStage_get_target hstage (targetPath_length env rel name d)
    rcases hrest with ⟨-, hex'⟩ | ⟨habs, -⟩
    · have hclsA : classifyTarget env fsA d.transform (sourcePath env rel name) content
          (targetPath env rel name d) =
          classifyTarget env fs d.transform (sourcePath env rel name) content
          (targetPath env rel name d) := classifyTarget_congr hgetA
      have hsatA : satCond env d (sourcePath env rel name) content
          (targetPath env rel name d) fsA = false := by
        apply satCond_false_of_not_identical
        rw [hclsA]
        exact hdif
      have hovA : ovCond env opts d (sourcePath env rel name) content
          (targetPath env rel name d) fsA = false := ovCond_false_of_override_off hov
      rcases onExisting_run hex' with ⟨hsat, -, -⟩ | ⟨-, hovc, -⟩ | ⟨-, -, rfl, rfl⟩
      · rw [hsatA] at hsat
        cases hsat
      · rw [hovA] at hovc
        cases hovc
      · exact ⟨rfl, hgetA.trans hex⟩
    · rw [habs] at hgetA
      rw [hex] at hgetA
      exact Option.noConfusion hgetA

def envW2 : Env :=
  { root := ["r"], home := ["h"], tree := [ .file "c" "C" ],
    luaEval := fun _ => .error "no chunk" }

def fsW2 : Fs := [(["h", "c"], .file "X"), (["h"], .dir)]

def dDefault : LuaDecision := ⟨true, none, none⟩

theorem conflict_never_resolved_witness :
    Fs.get fsW2 (targetPath envW2 [] "c" dDefault) = some (.file "X") ∧
    (classifyTarget envW2 fsW2 dDefault.transform (sourcePath envW2 [] "c") "C"
      (targetPath envW2 [] "c" dDefault)).identical = false ∧
    processFile envW2 optsStd [] envW2.tree "c" "C" fsW2 =
      .ok (fsW2, WalkCounts.conflict1) ∧
    (WalkCounts.conflict1 = WalkCounts.conflict1 ∧
      Fs.get fsW2 (targetPath envW2 [] "c" dDefault) = some (.file "X")) :=
  ⟨by decide, by decide, by decide,
   conflict_never_resolved envW2 optsStd [] envW2.tree "c" "C" fsW2 fsW2
     WalkCounts.conflict1 dDefault (.file "X") rfl rfl rfl (by decide) (by decide)
     (by decide)⟩

/-- **C3.**  Dry-run performs no filesystem mutation: a successful dry
walk returns the destination filesystem unchanged, records no overrides,
and still classifies and counts every managed file entry — the three
remaining counters add up to the number of walked files. -/
theorem dry_run_no_mutation (env : Env) (opts : Options) (rel : Path)
    (sib todo : List SrcEntry) (fs fs' : Fs) (c : WalkCounts)
    (hdry : opts.dry_run = true)
    (h : walkEntries env opts rel sib todo fs = .ok (fs', c)) :
    fs' = fs ∧ c.overrides = 0 ∧
      c.planned + c.conflicts + c.skips = fileCount sib todo :=
  walk_dry hdry rel sib todo fs h

set_option maxRecDepth 400000 in
theorem dry_run_no_mutation_witness :
    walkEntries envEx optsDry [] treeEx treeEx fsConflictEx =
      .ok (fsConflictEx, ⟨1, 1, 1, 0⟩) ∧
    (fsConflictEx = fsConflictEx ∧ (0 : Nat) = 0 ∧
      1 + 1 + 1 = fileCount treeEx treeEx) :=
  ⟨by rw [walkEntries_eval]; exact rfl,
   dry_run_no_mutation envEx optsDry [] treeEx treeEx fsConflictEx fsConflictEx
     ⟨1, 1, 1, 0⟩ rfl (by rw [walkEntries_eval]; exact rfl)⟩

/-- **C4.**  Aggregation across recursion: walking a split listing in
sequence adds the four counters componentwise, and a directory entry's
contribution is exactly the counters of the recursive walk of its own
listing added to those of the remaining siblings — so nested subtree
counts sum into the top-level summary. -/
theorem walk_counts_additive (env : Env) (opts : Options) :
    (∀ (rel : Path) (sib l1 l2 : List SrcEntry) (fs f1 f2 : Fs) (c1 c2 : WalkCounts),
      walkEntries env opts rel sib l1 fs = .ok (f1, c1) →
      walkEntries env opts rel sib l2 f1 = .ok (f2, c2) →
      walkEntries env opts rel sib (l1 ++ l2) fs =
        .ok (f2, ⟨c1.planned + c2.planned, c1.conflicts + c2.conflicts,
                  c1.skips + c2.skips, c1.overrides + c2.overrides⟩)) ∧
    (∀ (rel : Path) (sib : List SrcEntry) (n : String) (sub rest : List SrcEntry)
      (fs fsa fsb : Fs) (ca cb : WalkCounts),
      isCompanionToSibling sib (SrcEntry.dir n sub).name = false →
      walkEntries env opts (rel ++ [n]) sub sub fs = .ok (fsa, ca) →
      walkEntries env opts rel sib rest fsa = .ok (fsb, cb) →
      walkEntries env opts rel sib (SrcEntry.dir n sub :: rest) fs =
        .ok (fsb, ⟨ca.planned + cb.planned, ca.conflicts + cb.conflicts,
                   ca.skips + cb.skips, ca.overrides + cb.overrides⟩)) := by
  constructor
  · intro rel sib l1 l2 fs f1 f2 c1 c2 h1 h2
    exact walk_append l1 h1 h2
  · intro rel sib n sub rest fs fsa fsb ca cb hcomp h1 h2
    have hcomp' : ¬ isCompanionToSibling sib (SrcEntry.dir n sub).name = true := by
      simp [hcomp]
    simp only [walkEntries.eq_2, if_neg hcomp', h1, h2]
    rfl

set_option maxRecDepth 400000 in
theorem walk_counts_additive_witness :
    walkEntries envEx optsStd [] treeEx [ .file "a" "A" ] fsConflictEx =
      .ok ([(["h", "a"], .symlink ["r", "a"]), (["h"], .dir),
            (["h", "d", "e", "c"], .file "X")], ⟨1, 0, 0, 0⟩) ∧
    walkEntries envEx optsStd [] treeEx
        [ .dir "d" [ .dir "e" [ .file "c" "C" ] ],
          .dir "s" [ .file "b" "B", .file "b.lua" "return false" ] ]
        [(["h", "a"], .symlink ["r", "a"]), (["h"], .dir),
         (["h", "d", "e", "c"], .file "X")] =
      .ok ([(["h", "d", "e"], .dir), (["h", "d"], .dir),
            (["h", "a"], .symlink ["r", "a"]), (["h"], .dir),
            (["h", "d", "e", "c"], .file "X")], ⟨0, 1, 1, 0⟩) ∧
    walkEntries envEx optsStd [] treeEx
        ([ .file "a" "A" ] ++
          [ .dir "d" [ .dir "e" [ .file "c" "C" ] ],
            .dir "s" [ .file "b" "B", .file "b.lua" "return false" ] ]) fsConflictEx =
      .ok ([(["h", "d", "e"], .dir), (["h", "d"], .dir),
            (["h", "a"], .symlink ["r", "a"]), (["h"], .dir),
            (["h", "d", "e", "c"], .file "X")], ⟨1, 1, 1, 0⟩) :=
  ⟨by rw [walkEntries_eval]; exact rfl,
   by rw [walkEntries_eval]; exact rfl,
   (walk_counts_additive envEx optsStd).1 [] treeEx _ _ fsConflictEx _ _ _ _
     (by rw [walkEntries_eval]; exact rfl)
     (by rw [walkEntries_eval]; exact rfl)⟩

/-- **C5.**  Transform round-trip: an entry whose decision carries
transform content `cc` and whose destination is absent is materialized in
a non-dry run as a regular file holding exactly `cc` (the `.file`
constructor — never a symlink), counted as one planned action. -/
theorem transform_fresh_write (env : Env) (opts : Options) (rel : Path)
    (sib : List SrcEntry) (name content : String) (fs f1 : Fs) (c1 : WalkCounts)
    (d : LuaDecision) (cc : String)
    (hdry : opts.dry_run = false)
    (hdec : decideFile env sib name content = .ok d)
    (htr : d.transform = some cc)
    (habs : Fs.get fs (targetPath env rel name d) = none)
    (hrun : processFile env opts rel sib name content fs = .ok (f1, c1)) :
    Fs.get f1 (targetPath env rel name d) = some (.file cc) ∧
    c1 = WalkCounts.planned1 := by
  obtain ⟨d', hdec', hcase⟩ := processFile_run hrun
  rw [hdec] at hdec'
  cases hdec'
  rcases hcase with ⟨hninc, -, -⟩ | ⟨-, fsA, hstage, hrest⟩
  · obtain ⟨-, htr'⟩ := decideFile_exclude hdec hninc
    rw [htr] at htr'
    exact Option.noConfusion htr'
  · have hgetA : Fs.get fsA (targetPath env rel name d) =
        Fs.get fs (targetPath env rel name d) :=
      dirStage_get_target hstage (targetPath_length env rel name d)
    rcases hrest with ⟨⟨e0, hget⟩, -⟩ | ⟨-, hab⟩
    · rw [hgetA, habs] at hget
      exact Option.noConfusion hget
    · obtain ⟨rfl, hrest⟩ := onAbsent_run hab
      rcases hrest with ⟨hd, -⟩ | ⟨-, ⟨cc', htr', rfl⟩ | ⟨htr', -, -⟩⟩
      · rw [hdry] at hd
        cases hd
      · rw [htr] at htr'
        cases htr'
        refine ⟨?_, rfl⟩
        rw [Fs.get_set]
        simp
      · rw [htr] at htr'
        exact Option.noConfusion htr'

def envW5 : Env :=
  { root := ["r"], home := ["h"],
    tree := [ .file "cfg" "HELLO", .file "cfg.lua" "transform chunk" ],
    luaEval := fun s =>
      if s = "transform chunk" then
        .ok (.table ⟨.nil, .func (fun orig => .ok (orig ++ "!"))⟩)
      else .error "unknown chunk" }

def dW5 : LuaDecision := ⟨true, none, some "HELLO!"⟩

theorem transform_fresh_write_witness :
    decideFile envW5 envW5.tree "cfg" "HELLO" = .ok dW5 ∧
    processFile envW5 optsStd [] envW5.tree "cfg" "HELLO" [] =
      .ok ([(["h", "cfg"], .file "HELLO!"), (["h"], .dir)], WalkCounts.planned1) ∧
    (Fs.get [(["h", "cfg"], FsEntry.file "HELLO!"), (["h"], FsEntry.dir)]
        (targetPath envW5 [] "cfg" dW5) = some (.file "HELLO!") ∧
      WalkCounts.planned1 = WalkCounts.planned1) :=
  ⟨rfl, by decide,
   transform_fresh_write envW5 optsStd [] envW5.tree "cfg" "HELLO" []
     [(["h", "cfg"], .file "HELLO!"), (["h"], .dir)] WalkCounts.planned1 dW5 "HELLO!"
     rfl rfl rfl (by decide) (by decide)⟩

def envC6 : Env :=
  { root := ["r"], home := ["h"], tree := [ .file "f" "hello" ],
    luaEval := fun _ => .error "no chunk" }

def fsC6 : Fs := [(["h", "f"], .symlink ["r", "f"])]

/-- **C6 counterexample.**  At this concrete input the destination is a
symlink whose target equals the source path exactly, so classification is
already-linked, yet `readsContent` is true: the eagerly evaluated
`content_matches` binding still executes `fs::read` on both files
(`target.is_file()` and `path.is_file()` both hold), refuting the claim
that a matching symlink short-circuits without reading either file's
content. -/
theorem already_linked_still_reads :
    (classifyTarget envC6 fsC6 none ["r", "f"] "hello" ["h", "f"]).alreadyLinked = true ∧
    (classifyTarget envC6 fsC6 none ["r", "f"] "hello" ["h", "f"]).readsContent = true := by
  constructor <;> rfl

/-- **C6 amended.**  For a non-transform entry whose destination is a
symlink whose target path equals the source path exactly (byte
comparison), classification is already-linked, and this takes precedence
over the identical-content check: the conflict path reports the entry
planned with no mutation regardless of any content comparison.  However
the content comparison is not short-circuited: the file contents are
still read whenever the destination resolves to a regular file
(`readsContent` equals `target.is_file()`). -/
theorem already_linked_precedence (env : Env) (opts : Options) (d : LuaDecision)
    (source target : Path) (srcContent : String) (fs : Fs)
    (htr : d.transform = none)
    (hget : Fs.get fs target = some (.symlink source)) :
    (classifyTarget env fs d.transform source srcContent target).alreadyLinked = true ∧
    (classifyTarget env fs d.transform source srcContent target).readsContent =
      isFileLike env fs target ∧
    onExisting env opts d source srcContent target fs = .ok (fs, WalkCounts.planned1) := by
  have hsat : satCond env d source srcContent target fs = true :=
    satCond_of_symlink htr hget
  refine ⟨?_, ?_, onExisting_eq_sat hsat⟩
  · rw [htr]
    simp [classifyTarget, readLink, hget]
  · rw [htr]
    simp [classifyTarget]

theorem already_linked_precedence_witness :
    (none : Option String) = none ∧
    Fs.get fsC6 ["h", "f"] = some (.symlink ["r", "f"]) ∧
    ((classifyTarget envC6 fsC6 (none : Option String) ["r", "f"] "OTHER"
        ["h", "f"]).alreadyLinked = true ∧
     (classifyTarget envC6 fsC6 (none : Option String) ["r", "f"] "OTHER"
        ["h", "f"]).readsContent = isFileLike envC6 fsC6 ["h", "f"] ∧
     onExisting envC6 optsStd ⟨true, none, none⟩ ["r", "f"] "OTHER" ["h", "f"] fsC6 =
       .ok (fsC6, WalkCounts.planned1)) :=
  ⟨rfl, by decide,
   already_linked_precedence envC6 optsStd ⟨true, none, none⟩ ["r", "f"] ["h", "f"]
     "OTHER" fsC6 rfl (by decide)⟩

/-- Modelled from the spec and the documented semantics of `std::fs::write`
(`File::create`, which truncates or creates, followed by `write_all`):
the call sites at lines 393-395 and 316-319 of `main.rs` use plain
`fs::write` with no write-then-rename or equivalent, so an I/O failure
after `k` bytes leaves a truncated destination file holding the first `k`
bytes.  The `fault` parameter injects the failure point (`none` means the
write runs to completion); the boolean result reports success. -/
def fsWriteFaulty (fault : Option Nat) (fs : Fs) (p : Path) (content : String) :
    Fs × Bool :=
  match fault with
  | none => (Fs.set fs p (.file content), true)
  | some k => (Fs.set fs p (.file (String.mk (content.data.take k))), false)

/-- The override path's materialization order (lines 315-319):
`fs::remove_file` first, then `fs::write`. -/
def overrideWriteFaulty (fault : Option Nat) (fs : Fs) (p : Path) (content : String) :
    Fs × Bool :=
  fsWriteFaulty fault (Fs.erase fs p) p content

/-- **C7.**  The transform write is not atomic: with the write failing
after one byte, the fresh-write path leaves a truncated one-byte file
(neither the complete content nor an untouched/absent destination), and
the override path, which removes the existing identical file before
writing, leaves an empty file where the destination previously held
`"old"` — the code's `fs::write` has no write-to-completion-or-not-at-all
mechanism. -/
theorem transform_write_truncation :
    (fsWriteFaulty (some 1) [] ["h", "f"] "ab").2 = false ∧
    Fs.get (fsWriteFaulty (some 1) [] ["h", "f"] "ab").1 ["h", "f"] =
      some (.file "a") ∧
    "a" ≠ "ab" ∧ Fs.get ([] : Fs) ["h", "f"] = none ∧
    (overrideWriteFaulty (some 0) [(["h", "f"], .file "old")] ["h", "f"] "new").2 =
      false ∧
    Fs.get (overrideWriteFaulty (some 0) [(["h", "f"], .file "old")] ["h", "f"]
      "new").1 ["h", "f"] = some (.file "") ∧
    "" ≠ "new" ∧ "" ≠ "old" := by
  refine ⟨rfl, by decide, by decide, rfl, rfl, by decide, by decide, by decide⟩



/-- **C8.**  A descriptor returning a table always yields an including
decision; the only excluding value is the boolean `false`, and a boolean
return carries no rename and no transform — hence every excluding
decision has `rename_to = none` and `transform = none`. -/
theorem decision_include_invariant (v : LuaValue) (src : String) (d : LuaDecision)
    (h : decisionOfValue v src = .ok d) :
    ((∃ t, v = .table t) → d.include_ = true) ∧
    (d.include_ = false →
      v = .boolean false ∧ d.rename_to = none ∧ d.transform = none) := by
  constructor
  · rintro ⟨t, rfl⟩
    exact decisionOfValue_table_include h
  · intro hinc
    exact decisionOfValue_exclude h hinc

theorem decision_include_invariant_witness :
    decisionOfValue (LuaValue.boolean false) "src" = .ok ⟨false, none, none⟩ ∧
    (((∃ t, LuaValue.boolean false = LuaValue.table t) →
        (LuaDecision.mk false none none).include_ = true) ∧
     ((LuaDecision.mk false none none).include_ = false →
        LuaValue.boolean false = .boolean false ∧
        (LuaDecision.mk false none none).rename_to = none ∧
        (LuaDecision.mk false none none).transform = none)) :=
  ⟨rfl, decision_include_invariant (LuaValue.boolean false) "src" ⟨false, none, none⟩ rfl⟩



/-- **C9.**  In non-dry mode, processing an included entry creates (or
verifies) every ancestor directory of the resolved destination before the
destination is classified: whatever the outcome (conflict, already
satisfied, or materialized), every non-empty prefix of the target's
parent directory resolves to a directory in the resulting filesystem. -/
theorem parent_dirs_created (env : Env) (opts : Options) (rel : Path)
    (sib : List SrcEntry) (name content : String) (fs f1 : Fs) (c1 : WalkCounts)
    (d : LuaDecision)
    (hdry : opts.dry_run = false)
    (hdec : decideFile env sib name content = .ok d)
    (hinc : d.include_ = true)
    (hrun : processFile env opts rel sib name content fs = .ok (f1, c1)) :
    dirsReady env f1 (env.home ++ rel) := by
  obtain ⟨d', hdec', hcase⟩ := processFile_run hrun
  rw [hdec] at hdec'
  cases hdec'
  rcases hcase with ⟨hninc, -, -⟩ | ⟨-, fsA, hstage, hrest⟩
  · rw [hinc] at hninc
    cases hninc
  · have hready : dirsReady env fsA (env.home ++ rel) := by
      have := dirStage_ready hdry hstage
      rwa [targetPath_dropLast] at this
    have hlen : ∀ q : Path, q <+: env.home ++ rel →
        q ≠ targetPath env rel name d := by
      intro q hpre hq
      have h1 : q.length ≤ (env.home ++ rel).length := hpre.length_le
      have h2 : (targetPath env rel name d).length = (env.home ++ rel).length + 1 := by
        simp only [targetPath, List.length_append, List.length_cons, List.length_nil]
      rw [hq, h2] at h1
      omega
    have hcongr : ∀ f2 : Fs,
        (∀ q : Path, q ≠ targetPath env rel name d → Fs.get f2 q = Fs.get fsA q) →
        dirsReady env f2 (env.home ++ rel) := by
      intro f2 hsame q hq hpre
      rw [isDirLike_congr (hsame q (hlen q hpre))]
      exact hready q hq hpre
    have hsame_set : ∀ (e : FsEntry) (q : Path), q ≠ targetPath env rel name d →
        Fs.get (Fs.set fsA (targetPath env rel name d) e) q = Fs.get fsA q := by
      intro e q hq
      rw [Fs.get_set, if_neg hq]
    have hsame_ov : ∀ (e : FsEntry) (q : Path), q ≠ targetPath env rel name d →
        Fs.get (Fs.set (Fs.erase fsA (targetPath env rel name d))
          (targetPath env rel name d) e) q = Fs.get fsA q := by
      intro e q hq
      rw [Fs.get_set, if_neg hq, Fs.get_erase, if_neg hq]
    rcases hrest with ⟨-, hex⟩ | ⟨hget, hab⟩
    · rcases onExisting_run hex with ⟨-, rfl, -⟩ | ⟨-, -, hovr⟩ | ⟨-, -, rfl, -⟩
      · exact hcongr _ (fun q _ => rfl)
      · obtain ⟨-, hform⟩ := overrideReplace_run hovr
        rcases hform with ⟨cc, -, rfl⟩ | ⟨-, rfl⟩
        · exact hcongr _ (hsame_ov _)
        · exact hcongr _ (hsame_ov _)
      · exact hcongr _ (fun q _ => rfl)
    · obtain ⟨-, hform⟩ := onAbsent_run hab
      rcases hform with ⟨hd, -⟩ | ⟨-, ⟨cc, -, rfl⟩ | ⟨-, -, rfl⟩⟩
      · rw [hdry] at hd
        cases hd
      · exact hcongr _ (hsame_set _)
      · exact hcongr _ (hsame_set _)

def envW9 : Env :=
  { root := ["r"], home := ["h"], tree := [ .dir "sub" [ .file "f" "F" ] ],
    luaEval := fun _ => .error "no chunk" }

def fsW9 : Fs := [(["h", "sub", "f"], .file "X")]

/-- The filesystem after processing `sub/f`: both parent directories were
created even though the entry itself is a conflict. -/
def fsW9' : Fs :=
  [(["h", "sub"], .dir), (["h"], .dir), (["h", "sub", "f"], .file "X")]

theorem parent_dirs_created_witness :
    processFile envW9 optsStd ["sub"] [ .file "f" "F" ] "f" "F" fsW9 =
      .ok (fsW9', WalkCounts.conflict1) ∧
    isDirLike envW9 fsW9' ["h"] = true ∧
    isDirLike envW9 fsW9' ["h", "sub"] = true :=
  ⟨by decide,
   parent_dirs_created envW9 optsStd ["sub"] [ .file "f" "F" ] "f" "F" fsW9 fsW9'
     WalkCounts.conflict1 ⟨true, none, none⟩ rfl rfl rfl (by decide)
     ["h"] (by decide) ⟨["sub"], rfl⟩,
   parent_dirs_created envW9 optsStd ["sub"] [ .file "f" "F" ] "f" "F" fsW9 fsW9'
     WalkCounts.conflict1 ⟨true, none, none⟩ rfl rfl rfl (by decide)
     ["h", "sub"] (by decide) (List.prefix_refl _)⟩

/-- The table arm builds the default decision when the transform field
fails conversion (treated as absent). -/
theorem tableTransform_bad (t : LuaTable) (rt' : Option String) (src : String)
    (htf : getOptFunc t.transform = .error ()) :
    tableTransform t rt' src = .ok ⟨true, rt', none⟩ := by
  unfold tableTransform
  rw [htf]

/-- The table arm builds the default decision when the transform field is
absent. -/
theorem tableTransform_none (t : LuaTable) (rt' : Option String) (src : String)
    (htf : getOptFunc t.transform = .ok none) :
    tableTransform t rt' src = .ok ⟨true, rt', none⟩ := by
  unfold tableTransform
  rw [htf]

/-- **C10.**  A table field of the wrong dynamic type is silently treated
as absent: a non-nil, non-string `rename_to` makes the decision identical
to the one computed with `rename_to` absent; a non-nil, non-function
`transform` likewise; and with both fields wrong, evaluation still
succeeds with the fully default include decision — no descriptor error is
raised. -/
theorem bad_fields_treated_absent (rt tf : LuaRaw) (src : String) :
    (getOptString rt = .error () →
      decisionOfValue (.table ⟨rt, tf⟩) src = decisionOfValue (.table ⟨.nil, tf⟩) src) ∧
    (getOptFunc tf = .error () →
      decisionOfValue (.table ⟨rt, tf⟩) src = decisionOfValue (.table ⟨rt, .nil⟩) src) ∧
    (getOptString rt = .error () → getOptFunc tf = .error () →
      decisionOfValue (.table ⟨rt, tf⟩) src = .ok ⟨true, none, none⟩) := by
  refine ⟨?_, ?_, ?_⟩
  · intro hrt
    simp only [decisionOfValue]
    rw [hrt]
    rfl
  · intro htf
    simp only [decisionOfValue]
    cases hv : getOptString rt with
    | ok v =>
      cases v with
      | none =>
        show tableTransform ⟨rt, tf⟩ none src = tableTransform ⟨rt, .nil⟩ none src
        rw [tableTransform_bad ⟨rt, tf⟩ none src htf,
          tableTransform_none ⟨rt, .nil⟩ none src rfl]
      | some nm =>
        show (if '/' ∈ nm.data ∨ '\\' ∈ nm.data then
            (.error "rename_to must be a file name without path separators" :
              Except String LuaDecision)
          else if nm = "" then .error "rename_to must not be empty"
          else tableTransform ⟨rt, tf⟩ (some nm) src) =
          (if '/' ∈ nm.data ∨ '\\' ∈ nm.data then
            .error "rename_to must be a file name without path separators"
          else if nm = "" then .error "rename_to must not be empty"
          else tableTransform ⟨rt, .nil⟩ (some nm) src)
        split
        · rfl
        · split
          · rfl
          · rw [tableTransform_bad ⟨rt, tf⟩ (some nm) src htf,
              tableTransform_none ⟨rt, .nil⟩ (some nm) src rfl]
    | error u =>
      show tableTransform ⟨rt, tf⟩ none src = tableTransform ⟨rt, .nil⟩ none src
      rw [tableTransform_bad ⟨rt, tf⟩ none src htf,
        tableTransform_none ⟨rt, .nil⟩ none src rfl]
  · intro hrt htf
    simp only [decisionOfValue]
    rw [hrt]
    show tableTransform ⟨rt, tf⟩ none src = .ok ⟨true, none, none⟩
    exact tableTransform_bad ⟨rt, tf⟩ none src htf

theorem bad_fields_treated_absent_witness :
    getOptString (LuaRaw.boolean true) = .error () ∧
    getOptFunc LuaRaw.table = .error () ∧
    decisionOfValue (.table ⟨.boolean true, .table⟩) "src" = .ok ⟨true, none, none⟩ :=
  ⟨rfl, rfl,
   (bad_fields_treated_absent (.boolean true) .table "src").2.2 rfl rfl⟩

end Dotty
